import Mathlib

/-!
Verification development for the UAV log-viewer backend
(`src/backend/app.py`): a shallow embedding of its statistical analysis
engine, metric library, and tool-call orchestration engine, together with
theorems settling the specification claims.

Modelling conventions:
* Python numbers (ints and floats) are modelled as exact rationals `ℚ`;
  the single irrational operation, `variance ** 0.5`, is modelled as
  `Real.sqrt` and kept in `ℝ`.
* Python dicts used as ordered maps are modelled as insertion-ordered
  association lists.
* `round(x, n)` is Python's round-half-to-even, modelled exactly on `ℚ`
  (and on `ℝ` for quantities derived from square roots).
-/

namespace UAVLog

/-- Python `round` on a rational: round half to even (banker's rounding). -/
def pyRound (q : ℚ) : ℤ :=
  if q - ⌊q⌋ = 1/2 then (if Even ⌊q⌋ then ⌊q⌋ else ⌊q⌋ + 1) else round q

/-- Python `round(x, nd)` on a rational. -/
def roundTo (nd : ℕ) (q : ℚ) : ℚ := (pyRound (q * 10 ^ nd) : ℚ) / 10 ^ nd

/-- Python `round` on a real: round half to even (banker's rounding). -/
noncomputable def pyRoundR (x : ℝ) : ℤ :=
  if x - ⌊x⌋ = 1/2 then (if Even ⌊x⌋ then ⌊x⌋ else ⌊x⌋ + 1) else round x

/-- Python `round(x, nd)` on a real. -/
noncomputable def roundToR (nd : ℕ) (x : ℝ) : ℝ := (pyRoundR (x * 10 ^ nd) : ℝ) / 10 ^ nd

/-- Lookup in an insertion-ordered association list (Python `d[k]` / `d.get(k)`). -/
def alookup {β : Type} (m : List (String × β)) (k : String) : Option β :=
  match m.find? (fun p => p.1 == k) with
  | some p => some p.2
  | none => none

/-- Python `k in d` for an association list. -/
def hasKey {β : Type} (m : List (String × β)) (k : String) : Bool :=
  (alookup m k).isSome

/-- Python `d[k] = v`: overwrite in place if the key exists, else append. -/
def dictInsert {β : Type} (m : List (String × β)) (k : String) (v : β) :
    List (String × β) :=
  if hasKey m k then m.map (fun p => if p.1 == k then (k, v) else p) else m ++ [(k, v)]

/-- Python `min` over a nonempty list of rationals (`0` on `[]`, unused there). -/
def listMin : List ℚ → ℚ
  | [] => 0
  | x :: xs => xs.foldl min x

/-- Python `max` over a nonempty list of rationals (`0` on `[]`, unused there). -/
def listMax : List ℚ → ℚ
  | [] => 0
  | x :: xs => xs.foldl max x

/-- Python `max(iterable, default=None)` over rationals. -/
def pyListMax : List ℚ → Option ℚ
  | [] => none
  | x :: xs => some (xs.foldl max x)

/-- Python `max(iterable, key=k)`: the first element attaining the maximal key. -/
def pyMaxBy {α : Type} (k : α → ℚ) : List α → Option α
  | [] => none
  | x :: xs => some (xs.foldl (fun m y => if k y > k m then y else m) x)

/-- Stable ascending insertion by a total (key, original-index) order; used to
model Python's stable `sort`/`sorted` with a numeric key. -/
def insertByKey {α : Type} (key : α → ℚ × ℕ) (x : α) : List α → List α
  | [] => [x]
  | y :: ys =>
    if (key x).1 < (key y).1 ∨ ((key x).1 = (key y).1 ∧ (key x).2 ≤ (key y).2) then
      x :: y :: ys
    else
      y :: insertByKey key x ys

def sortByKey {α : Type} (key : α → ℚ × ℕ) : List α → List α
  | [] => []
  | x :: xs => insertByKey key x (sortByKey key xs)

/-- Python `sorted(l, key=k)` / `l.sort(key=k)`: stable sort by a numeric key,
realised as sorting by the total lexicographic (key, original index) order. -/
def pySortBy {α : Type} (k : α → ℚ) (l : List α) : List α :=
  (sortByKey (fun p => (k p.2, p.1)) l.enum).map (·.2)

/-- Substring test (Python `pat in s`), via `splitOn`. -/
def strContains (s pat : String) : Bool := (s.splitOn pat).length > 1

/-! ### Session data model

Embedding of `SessionBundle` and the parts of its payload that the backend
reads.  A downsample item is a JSON object; the embedding gives it the named
numeric fields the metric code accesses (`t`, `altM`, `relAltM`, `fix`,
`temp`, `vx`, `vy`, `vz`), each `none` when the key is absent or null.  The
source additionally probes alias spellings of the battery temperature key
(`temperature`, `tempC`, ...); the embedding collapses those aliases into the
single field `temp`.  The `index` dict is read only through `in` and `len`,
so it is embedded as its list of keys. -/

structure Item where
  t : Option ℚ := none
  altM : Option ℚ := none
  relAltM : Option ℚ := none
  fix : Option ℚ := none
  temp : Option ℚ := none
  vx : Option ℚ := none
  vy : Option ℚ := none
  vz : Option ℚ := none
deriving DecidableEq

structure GapRec where
  startMs : Option ℚ := none
  durationMs : Option ℚ := none
deriving DecidableEq

structure SEvent where
  t : Option ℚ := none
  text : String := ""
  severity : Option ℚ := none
deriving DecidableEq

structure SessionMeta where
  tStartMs : Option ℚ := none
  tEndMs : Option ℚ := none
deriving DecidableEq

structure SessionBundle where
  meta : SessionMeta := {}
  index : List String := []
  downsample1Hz : List (String × List Item) := []
  events : List SEvent := []
  gaps : Option (List (String × List GapRec)) := none
deriving DecidableEq

/-- The in-memory session store (`sessions` dict), keyed by session id. -/
def SessionStore : Type := List (String × SessionBundle)

/-- Embedding of the `MetricResult` pydantic model.  The free-text fields
`method`/`source`/`notes` are carried but abbreviated: no claim inspects
their wording. -/
structure MetricResult where
  name : String
  ok : Bool
  value : Option ℚ := none
  units : String := ""
  t_ms : Option ℚ := none
  method : String := ""
  source : String := ""
  notes : String := ""
deriving DecidableEq

/-! ### Metric library (`metrics_compute_*` functions) -/

/-- Embedding of `metrics_compute_max_altitude`: try the `alt` downsample
(VFR_HUD) first, falling back to `gpos` (GLOBAL_POSITION_INT relative
altitude); among samples attaining the maximal altitude, `max(..., key=t)`
picks the one with the largest timestamp (first such on timestamp ties). -/
def metrics_compute_max_altitude (s : SessionBundle) : MetricResult :=
  let alt_data := (alookup s.downsample1Hz "alt").getD []
  let tryAlt : Option MetricResult :=
    if alt_data.isEmpty then none
    else
      match pyListMax (alt_data.filterMap (·.altM)) with
      | none => none
      | some m =>
        match pyMaxBy (fun it => it.t.getD 0) (alt_data.filter (fun it => it.altM == some m)) with
        | none => none
        | some it =>
          some { name := "max_altitude", ok := true, value := some (roundTo 1 m),
                 units := "m", t_ms := it.t, method := "VFR_HUD.alt",
                 source := "downsample1Hz.alt" }
  match tryAlt with
  | some r => r
  | none =>
    let gpos_data := (alookup s.downsample1Hz "gpos").getD []
    let tryGpos : Option MetricResult :=
      if gpos_data.isEmpty then none
      else
        match pyListMax (gpos_data.filterMap (·.relAltM)) with
        | none => none
        | some m =>
          match pyMaxBy (fun it => it.t.getD 0)
              (gpos_data.filter (fun it => it.relAltM == some m)) with
          | none => none
          | some it =>
            some { name := "max_altitude", ok := true, value := some (roundTo 1 m),
                   units := "m", t_ms := it.t, method := "GLOBAL_POSITION_INT.relative_alt",
                   source := "downsample1Hz.gpos", notes := "fallback" }
    match tryGpos with
    | some r => r
    | none =>
      { name := "max_altitude", ok := false, value := none, units := "m",
        notes := "No altitude data available" }

/-- Embedding of `metrics_compute_flight_time`. -/
def metrics_compute_flight_time (s : SessionBundle) : MetricResult :=
  match s.meta.tStartMs, s.meta.tEndMs with
  | some a, some b =>
    if b > a then
      { name := "flight_time", ok := true, value := some (roundTo 1 ((b - a) / 1000)),
        units := "s", method := "tEndMs - tStartMs", source := "session.meta" }
    else
      { name := "flight_time", ok := false, value := none, units := "s",
        notes := "Invalid or missing timestamp data" }
  | _, _ =>
    { name := "flight_time", ok := false, value := none, units := "s",
      notes := "Invalid or missing timestamp data" }

/-- Embedding of `metrics_compute_first_gps_loss`: first item (in ascending
timestamp order, stable) whose `fix` is present and below 3. -/
def metrics_compute_first_gps_loss (s : SessionBundle) : MetricResult :=
  let gps_data := (alookup s.downsample1Hz "gps").getD []
  if gps_data.isEmpty then
    { name := "first_gps_loss", ok := false, value := none,
      notes := "No GPS data available" }
  else
    match (pySortBy (fun it => it.t.getD 0) gps_data).find?
        (fun it => match it.fix with | some f => decide (f < 3) | none => false) with
    | some it =>
      { name := "first_gps_loss", ok := true, value := it.fix, units := "fix_type",
        t_ms := it.t, method := "first fix_type below 3", source := "downsample1Hz.gps" }
    | none =>
      { name := "first_gps_loss", ok := true, value := none,
        method := "GPS fix_type analysis", source := "downsample1Hz.gps",
        notes := "No GPS loss detected" }

def battery_streams : List String :=
  ["BATTERY_STATUS", "SYS_STATUS", "BAT", "BATT", "BATTERY"]

/-- Running maximum over `temp` fields with Python's strict-greater update
(first occurrence kept on ties), threaded over a list of items. -/
def scanTemps (items : List Item) (st : Option (ℚ × Option ℚ)) : Option (ℚ × Option ℚ) :=
  items.foldl
    (fun acc it =>
      match it.temp with
      | none => acc
      | some v =>
        match acc with
        | none => some (v, it.t)
        | some (m, _) => if v > m then some (v, it.t) else acc)
    st

/-- Embedding of `metrics_compute_max_battery_temp`: scan the `battery`
downsample section, then the lowercased battery stream sections, for the
largest temperature sample; if none is found, report not-ok (with a
different note depending on whether a battery stream exists in the index). -/
def metrics_compute_max_battery_temp (s : SessionBundle) : MetricResult :=
  let st0 := scanTemps ((alookup s.downsample1Hz "battery").getD []) none
  let st := battery_streams.foldl
    (fun acc name => scanTemps ((alookup s.downsample1Hz name.toLower).getD []) acc) st0
  match st with
  | some (m, tm) =>
    { name := "max_battery_temp", ok := true, value := some (roundTo 1 m),
      units := "°C", t_ms := tm, method := "max temp sample", source := "downsample1Hz" }
  | none =>
    if (battery_streams.filter (fun n => s.index.contains n)).isEmpty then
      { name := "max_battery_temp", ok := false, value := none, units := "°C",
        source := "session.index", notes := "No battery temperature streams found" }
    else
      { name := "max_battery_temp", ok := false, value := none, units := "°C",
        source := "session.index", notes := "Battery data not processed in downsample1Hz" }

/-- RC-loss event test from `metrics_compute_first_rc_loss` (uppercased text
contains RC together with FAILSAFE, LOST or DISCONNECT). -/
def isRcLossEvent (e : SEvent) : Bool :=
  e.text != "" &&
    (strContains e.text.toUpper "RC" &&
      (strContains e.text.toUpper "FAILSAFE" || strContains e.text.toUpper "LOST" ||
        strContains e.text.toUpper "DISCONNECT"))

/-- Embedding of `metrics_compute_first_rc_loss`. -/
def metrics_compute_first_rc_loss (s : SessionBundle) : MetricResult :=
  let rc_loss_events := pySortBy (fun e => e.t.getD 0) (s.events.filter isRcLossEvent)
  match rc_loss_events with
  | e :: _ =>
    { name := "first_rc_loss", ok := true, value := some 1, units := "detected",
      t_ms := e.t, method := "STATUSTEXT event analysis", source := "session.events" }
  | [] =>
    if s.index.contains "RC_CHANNELS" then
      { name := "first_rc_loss", ok := false, value := none,
        method := "RC_CHANNELS stream analysis", source := "session.index" }
    else if s.index.contains "SYS_STATUS" then
      { name := "first_rc_loss", ok := false, value := none,
        method := "SYS_STATUS stream analysis", source := "session.index" }
    else
      { name := "first_rc_loss", ok := true, value := none,
        method := "STATUSTEXT event analysis", source := "session.events",
        notes := "No RC signal loss detected" }

def critical_keywords : List String :=
  ["FAILSAFE", "GPS", "EKF", "BATTERY", "CRASH", "VIBRATION",
   "COMPASS", "GYRO", "ACCEL", "ERROR", "CRITICAL", "WARNING"]

/-- Critical-event test from `metrics_compute_critical_errors`. -/
def isCriticalEvent (e : SEvent) : Bool :=
  e.text != "" &&
    ((match e.severity with | some sev => decide (sev ≤ 3) | none => false) ||
      critical_keywords.any (fun k => strContains e.text.toUpper k))

/-- Embedding of `metrics_compute_critical_errors`. -/
def metrics_compute_critical_errors (s : SessionBundle) : MetricResult :=
  let critical_events := pySortBy (fun e => e.t.getD 0) (s.events.filter isCriticalEvent)
  { name := "critical_errors", ok := true, value := some critical_events.length,
    units := "count",
    t_ms := match critical_events with | e :: _ => e.t | [] => none,
    method := "STATUSTEXT event analysis", source := "session.events" }

/-- Embedding of `metrics_compute_available_streams`. -/
def metrics_compute_available_streams (s : SessionBundle) : MetricResult :=
  { name := "available_streams", ok := true, value := some s.index.length,
    units := "count", method := "Session index analysis", source := "session.index" }

/-- Embedding of `metrics_compute_missing_segments`: count gaps of at least
5000 ms across all streams (0 when the gap table is absent or empty). -/
def metrics_compute_missing_segments (s : SessionBundle) : MetricResult :=
  match s.gaps with
  | none =>
    { name := "missing_segments", ok := true, value := some 0, units := "count",
      method := "Big gap analysis", source := "session.gaps", notes := "No gap data available" }
  | some g =>
    if g.isEmpty then
      { name := "missing_segments", ok := true, value := some 0, units := "count",
        method := "Big gap analysis", source := "session.gaps", notes := "No gap data available" }
    else
      let bigs := g.flatMap (fun p => p.2.filter (fun r => decide (r.durationMs.getD 0 ≥ 5000)))
      { name := "missing_segments", ok := true, value := some bigs.length, units := "count",
        method := "Big gap analysis", source := "session.gaps" }

/-- Embedding of `metrics_compute`: dispatch on the metric name, with not-ok
results for unknown sessions and unknown metric names. -/
def metrics_compute (store : SessionStore) (session_id metric : String) : MetricResult :=
  match alookup store session_id with
  | none =>
    { name := metric, ok := false, value := none, notes := "Session not found" }
  | some s =>
    if metric == "max_altitude" then metrics_compute_max_altitude s
    else if metric == "flight_time" then metrics_compute_flight_time s
    else if metric == "first_gps_loss" then metrics_compute_first_gps_loss s
    else if metric == "first_rc_loss" then metrics_compute_first_rc_loss s
    else if metric == "max_battery_temp" then metrics_compute_max_battery_temp s
    else if metric == "critical_errors" then metrics_compute_critical_errors s
    else if metric == "available_streams" then metrics_compute_available_streams s
    else if metric == "missing_segments" then metrics_compute_missing_segments s
    else { name := metric, ok := false, value := none, notes := "Unknown metric" }

/-! ### Raw-record fetch (`get_telemetry_data_internal`)

A fetched record carries the timestamp the source reads via
`row.get('time_boot_ms', ...)` (always set by the internal fetch) plus named
numeric fields; a field bound to `none` models a key present with a null
value, and an absent key also reads as `none` via `Row.get`. -/

structure Row where
  time_boot_ms : ℚ
  vals : List (String × Option ℚ) := []
deriving DecidableEq

def Row.get (r : Row) (f : String) : Option ℚ :=
  match r.vals.find? (fun p => p.1 == f) with
  | some p => p.2
  | none => none

/-- Stream-name to downsample-key mapping from `get_telemetry_data_internal`. -/
def streamKey (stream : String) : String :=
  if stream == "GLOBAL_POSITION_INT" then "gpos"
  else if stream == "GPS_RAW_INT" then "gps"
  else if stream == "VFR_HUD" then "alt"
  else stream.toLower

/-- Velocity conversion `item.get("vx", 0) / 100 if item.get("vx") else 0`
(cm/s to m/s, with falsy values collapsing to 0). -/
def pyVel (v : Option ℚ) : ℚ :=
  match v with
  | some x => if x ≠ 0 then x / 100 else 0
  | none => 0

/-- Conversion of a downsample item to a record, including the
GLOBAL_POSITION_INT field mapping and the optional projection to requested
fields (an empty `fields` list is falsy in Python and disables filtering). -/
def convertItem (stream : String) (fields : List String) (it : Item) : Row :=
  let base : List (String × Option ℚ) :=
    if stream == "GLOBAL_POSITION_INT" then
      [("alt", it.relAltM), ("vx", some (pyVel it.vx)),
       ("vy", some (pyVel it.vy)), ("vz", some (pyVel it.vz))]
    else []
  if fields.isEmpty then
    { time_boot_ms := it.t.getD 0, vals := base }
  else
    { time_boot_ms := it.t.getD 0,
      vals := fields.filterMap (fun f => (base.find? (fun p => p.1 == f)).map (fun p => (f, p.2))) }

structure SliceResult where
  ok : Bool
  rows : List Row
deriving DecidableEq

/-- Embedding of `get_telemetry_data_internal`: not-ok when the session is
unknown or the mapped downsample stream is empty; otherwise the converted
records, optionally time-filtered, truncated to `maxPoints`. -/
def get_telemetry_data_internal (store : SessionStore) (session_id stream : String)
    (fields : List String) (start_ms end_ms : Option ℚ) (max_points : ℕ) : SliceResult :=
  match alookup store session_id with
  | none => ⟨false, []⟩
  | some s =>
    let stream_data := (alookup s.downsample1Hz (streamKey stream)).getD []
    if stream_data.isEmpty then ⟨false, []⟩
    else
      let records := stream_data.map (convertItem stream fields)
      let records :=
        if start_ms.isSome || end_ms.isSome then
          records.filter (fun r =>
            decide ((start_ms.getD r.time_boot_ms) ≤ r.time_boot_ms) &&
            decide (r.time_boot_ms ≤ (end_ms.getD r.time_boot_ms)))
        else records
      let records := if records.length > max_points then records.take max_points else records
      ⟨true, records⟩

/-! ### Windowing (shared by `calculate_rolling_statistics` and
`detect_outliers_with_dynamic_thresholds`; the two source functions repeat
the identical formulas, embedded here once) -/

def minTime : List Row → ℚ
  | [] => 0
  | r :: rs => rs.foldl (fun a x => min a x.time_boot_ms) r.time_boot_ms

def maxTime : List Row → ℚ
  | [] => 0
  | r :: rs => rs.foldl (fun a x => max a x.time_boot_ms) r.time_boot_ms

def durationMs (rows : List Row) : ℚ := maxTime rows - minTime rows

/-- `num_windows = max(1, duration_ms // window_size_ms)`. -/
def numWindows (rows : List Row) (w : ℚ) : ℕ :=
  (max 1 ⌊durationMs rows / w⌋).toNat

/-- `window_step = duration_ms / num_windows`. -/
def windowStep (rows : List Row) (w : ℚ) : ℚ :=
  durationMs rows / (numWindows rows w : ℚ)

/-- `window_start = first_time + i * window_step`. -/
def windowStart (rows : List Row) (w : ℚ) (i : ℕ) : ℚ :=
  minTime rows + i * windowStep rows w

/-- `window_end = window_start + window_size_ms` — the nominal window size,
not the effective step. -/
def windowEnd (rows : List Row) (w : ℚ) (i : ℕ) : ℚ :=
  windowStart rows w i + w

/-- Records of window `i`: the closed-closed filter of the source. -/
def windowRecords (rows : List Row) (w : ℚ) (i : ℕ) : List Row :=
  rows.filter (fun r =>
    decide (windowStart rows w i ≤ r.time_boot_ms) &&
    decide (r.time_boot_ms ≤ windowEnd rows w i))

/-- Numeric, non-null samples of a field within a record list. -/
def fieldValues (recs : List Row) (f : String) : List ℚ :=
  recs.filterMap (·.get f)

def listMean (vs : List ℚ) : ℚ := vs.sum / vs.length

def listVariance (vs : List ℚ) : ℚ :=
  (vs.map (fun x => (x - listMean vs) ^ 2)).sum / vs.length

/-! ### Baseline statistics (`calculate_rolling_statistics`) -/

structure FieldStats where
  sample_count : ℕ
  mean : Option ℚ
  std : Option ℝ
  min : Option ℚ
  max : Option ℚ

/-- Per-window per-field report: nulls below 2 samples, otherwise rounded
population mean and standard deviation together with the raw min and max. -/
noncomputable def windowFieldStats (vs : List ℚ) : FieldStats :=
  if vs.length < 2 then
    { sample_count := vs.length, mean := none, std := none, min := none, max := none }
  else
    { sample_count := vs.length,
      mean := some (roundTo 3 (listMean vs)),
      std := some (roundToR 3 (Real.sqrt (listVariance vs))),
      min := some (listMin vs),
      max := some (listMax vs) }

structure WindowData where
  window_index : ℕ
  start_ms : ℚ
  end_ms : ℚ
  fields : List (String × FieldStats)

structure BaselineFindings where
  fields : List String
  window_size_ms : ℚ
  total_records : ℕ
  duration_ms : ℚ
  num_windows : ℕ
  windows : List WindowData

/-- Embedding of `calculate_rolling_statistics`. -/
noncomputable def calculate_rolling_statistics (rows : List Row) (fields : List String)
    (w : ℚ) : BaselineFindings :=
  if rows.isEmpty then
    { fields := fields, window_size_ms := w, total_records := 0, duration_ms := 0,
      num_windows := 0, windows := [] }
  else
    { fields := fields, window_size_ms := w, total_records := rows.length,
      duration_ms := durationMs rows, num_windows := numWindows rows w,
      windows := (List.range (numWindows rows w)).map (fun i =>
        { window_index := i, start_ms := windowStart rows w i, end_ms := windowEnd rows w i,
          fields := fields.map (fun f =>
            (f, windowFieldStats (fieldValues (windowRecords rows w i) f))) }) }

/-! ### Outlier detection (`detect_outliers_with_dynamic_thresholds`)

The outlier test `value > mean + sigma*std or value < mean - sigma*std`
involves the real number `std = Real.sqrt variance`; `mulSqrtLt`/`ltMulSqrt`
are decidable reformulations by sign analysis and squaring, proved below to
coincide with the real-valued comparisons of the source. -/

/-- Decides `s * Real.sqrt v < b` for rationals, assuming `0 ≤ v`. -/
def mulSqrtLt (s v b : ℚ) : Bool :=
  if 0 ≤ s then (if b ≤ 0 then false else decide (s ^ 2 * v < b ^ 2))
  else (if 0 < b then true else decide (b ^ 2 < s ^ 2 * v))

/-- Decides `a < s * Real.sqrt v` for rationals, assuming `0 ≤ v`. -/
def ltMulSqrt (a s v : ℚ) : Bool :=
  if 0 ≤ s then (if a < 0 then true else decide (a ^ 2 < s ^ 2 * v))
  else (if 0 ≤ a then false else decide (s ^ 2 * v < a ^ 2))

/-- The source's outlier condition on a sample `x` given window mean `m`,
threshold multiplier `s` and variance `v`:
`x > m + s*sqrt v or x < m - s*sqrt v`. -/
def outlierCheck (x m s v : ℚ) : Bool :=
  mulSqrtLt s v (x - m) || ltMulSqrt (x - m) (-s) v

/-- The deviation in sigma units: `abs(value - mean) / std if std > 0 else 0`. -/
noncomputable def deviationSigma (x m v : ℚ) : ℝ :=
  if Real.sqrt v > 0 then |(x : ℝ) - m| / Real.sqrt v else 0

structure OutlierPoint where
  timestamp : ℚ
  value : ℚ
  deviation_sigma : ℝ
  deviation_magnitude : ℚ

structure OutlierEntry where
  field : String
  window_index : ℕ
  start_ms : ℚ
  end_ms : ℚ
  outlier_count : ℕ
  outlier_points : List OutlierPoint
  baseline_mean : ℚ
  baseline_std : ℝ
  threshold_upper : ℝ
  threshold_lower : ℝ

structure OutlierFindings where
  threshold_sigma : ℚ
  window_size_ms : ℚ
  total_records : ℕ
  duration_ms : ℚ
  num_windows : ℕ
  outliers : List OutlierEntry
  total_outliers : ℕ

/-- The per-window, per-field outlier entry, or `none` (skipped, not
reported) below 3 samples. -/
noncomputable def outlierEntry (rows : List Row) (sigma w : ℚ) (i : ℕ) (f : String) :
    Option OutlierEntry :=
  let recs := windowRecords rows w i
  let vs := fieldValues recs f
  if vs.length < 3 then none
  else
    let m := listMean vs
    let v := listVariance vs
    let pts := recs.filterMap (fun r =>
      match r.get f with
      | some x =>
        if outlierCheck x m sigma v then
          some { timestamp := r.time_boot_ms, value := x,
                 deviation_sigma := roundToR 2 (deviationSigma x m v),
                 deviation_magnitude := roundTo 3 |x - m| }
        else none
      | none => none)
    some { field := f, window_index := i, start_ms := windowStart rows w i,
           end_ms := windowEnd rows w i, outlier_count := pts.length, outlier_points := pts,
           baseline_mean := roundTo 3 m, baseline_std := roundToR 3 (Real.sqrt v),
           threshold_upper := roundToR 3 ((m : ℝ) + sigma * Real.sqrt v),
           threshold_lower := roundToR 3 ((m : ℝ) - sigma * Real.sqrt v) }

/-- Embedding of `detect_outliers_with_dynamic_thresholds`. -/
noncomputable def detect_outliers_with_dynamic_thresholds (rows : List Row)
    (fields : List String) (sigma w : ℚ) : OutlierFindings :=
  if rows.isEmpty then
    { threshold_sigma := sigma, window_size_ms := w, total_records := 0, duration_ms := 0,
      num_windows := 0, outliers := [], total_outliers := 0 }
  else
    let entries := (List.range (numWindows rows w)).flatMap (fun i =>
      fields.filterMap (fun f => outlierEntry rows sigma w i f))
    { threshold_sigma := sigma, window_size_ms := w, total_records := rows.length,
      duration_ms := durationMs rows, num_windows := numWindows rows w,
      outliers := entries, total_outliers := (entries.map (·.outlier_count)).sum }

/-! ### Tool-level wrappers -/

structure AnalysisResult where
  ok : Bool
  baseline : Option BaselineFindings := none
  outliers : Option OutlierFindings := none

/-- Embedding of `analyze_flight_baseline_impl`: not-ok on unknown session,
failed fetch, or fewer than 10 fetched records. -/
noncomputable def analyze_flight_baseline_impl (store : SessionStore)
    (session_id stream : String) (fields : List String) (w : ℚ) : AnalysisResult :=
  match alookup store session_id with
  | none => { ok := false }
  | some _ =>
    let sl := get_telemetry_data_internal store session_id stream fields none none 10000
    if !sl.ok then { ok := false }
    else if sl.rows.length < 10 then { ok := false }
    else { ok := true, baseline := some (calculate_rolling_statistics sl.rows fields w) }

/-- Embedding of `detect_statistical_outliers_impl`. -/
noncomputable def detect_statistical_outliers_impl (store : SessionStore)
    (session_id stream : String) (fields : List String) (sigma w : ℚ) : AnalysisResult :=
  match alookup store session_id with
  | none => { ok := false }
  | some _ =>
    let sl := get_telemetry_data_internal store session_id stream fields none none 10000
    if !sl.ok then { ok := false }
    else if sl.rows.length < 10 then { ok := false }
    else { ok := true,
           outliers := some (detect_outliers_with_dynamic_thresholds sl.rows fields sigma w) }

/-! ### Causal correlation (`trace_causal_chains_impl`) -/

structure CausalEvent where
  timestamp_ms : ℚ
  text : String
  severity : ℚ
  time_delta_ms : ℚ
  time_delta_seconds : ℚ
  direction : String
  proximity_rank : ℕ
deriving DecidableEq

def eventTime (e : SEvent) : ℚ := e.t.getD 0

/-- Annotation of one in-window event (rank filled in afterwards). -/
def annotateEvent (target : ℚ) (e : SEvent) : CausalEvent :=
  let delta := eventTime e - target
  { timestamp_ms := eventTime e, text := e.text, severity := e.severity.getD 0,
    time_delta_ms := delta, time_delta_seconds := roundTo 1 (delta / 1000),
    direction := if delta < 0 then "before" else "after", proximity_rank := 0 }

/-- The selected, annotated, proximity-sorted, rank-assigned event list. -/
def causalEvents (events : List SEvent) (target window : ℚ) : List CausalEvent :=
  let nearby := (events.filter (fun e =>
      e.text != "" &&
        decide (target - window ≤ eventTime e) &&
        decide (eventTime e ≤ target + window))).map (annotateEvent target)
  let sorted := pySortBy (fun c => |c.time_delta_ms|) nearby
  sorted.enum.map (fun p => { p.2 with proximity_rank := p.1 + 1 })

structure TraceFindings where
  ok : Bool
  target_timestamp_ms : ℚ
  time_window_ms : ℚ
  events_found : ℕ
  nearby_events : List CausalEvent
deriving DecidableEq

/-- Embedding of `trace_causal_chains_impl`. -/
def trace_causal_chains_impl (store : SessionStore) (session_id : String)
    (target window : ℚ) : TraceFindings :=
  match alookup store session_id with
  | none => ⟨false, target, window, 0, []⟩
  | some s =>
    let evs := causalEvents s.events target window
    ⟨true, target, window, evs.length, evs⟩

/-! ### Orchestration engine

Embedding of `chat_with_tools` (startConversation), `tool_reply`
(resolveOne) and `tool_reply_batch` (resolveBatch) for one fixed session.
The completion service is an oracle indexed by the number of completion
calls already made within the current request; local tool execution and
JSON serialization of its result are abstracted by a parameter
`exec : ToolCall → String` (the serialized payload never influences control
flow).  The bridged tool is recognised by name, exactly as in the source's
dispatch.  `tool_execution_log` and `start_time` are bookkeeping the claims
do not touch and are omitted.  The embedding assumes the bridged tool's
`sessionId` argument names the same session as the request, which is how
the source keys `pending_conversations`. -/

structure ToolCall where
  id : String
  name : String
deriving DecidableEq

structure CompletionResp where
  content : Option String
  toolCalls : List ToolCall
deriving DecidableEq

structure Msg where
  role : String
  content : String := ""
  toolCalls : List ToolCall := []
  tool_call_id : Option String := none
  name : Option String := none
deriving DecidableEq

structure PendingCall where
  tool : String
  result : Option String := none
deriving DecidableEq

/-- The per-session `pending_conversations` record. -/
structure Conversation where
  messages : List Msg
  pendingCalls : List (String × PendingCall)
  iteration : ℕ
deriving DecidableEq

def isBridgeTool (name : String) : Bool := name == "telemetry_slice"

def assistantMsg (resp : CompletionResp) : Msg :=
  { role := "assistant", content := resp.content.getD "", toolCalls := resp.toolCalls }

def toolResultMsg (callId toolName content : String) : Msg :=
  { role := "tool", content := content, tool_call_id := some callId, name := some toolName }

/-- The reply scan: last assistant message with non-empty content, else a
fixed fallback. -/
def finalReply (msgs : List Msg) (fallback : String) : String :=
  match msgs.reverse.find? (fun m => m.role == "assistant" && m.content != "") with
  | some m => m.content
  | none => fallback

def fallbackChat : String := "I apologize, but I encountered an issue processing your request."
def fallbackBatch : String := "Analysis completed"

inductive Outcome where
  | reply (text : String)
  | batchBridge (callIds : List String)
  | bridgeRequest
  | waiting (remaining : ℕ)
  | notFound
deriving DecidableEq

/-- Result of one HTTP-level operation: its outcome, the session's pending
conversation afterwards, the live transcript at return, and the number of
completion-service calls made during the operation. -/
structure OpResult where
  outcome : Outcome
  pend : Option Conversation
  msgs : List Msg
  ncalls : ℕ
deriving DecidableEq

def maxIterations : ℕ := 5

/-! #### The `chat_with_tools` loop -/

inductive ChatTurn where
  | toLoop (msgs : List Msg) (pend : Option Conversation)
  | suspend (msgs : List Msg) (conv : Conversation)
deriving DecidableEq

/-- Processing of one turn's tool calls inside `chat_with_tools`: local
tools execute and append a tool message; the bridged tool registers a
pending call in the (lazily created, snapshotting) conversation, and a
batch bridge request is returned once every call of this turn's assistant
message is registered as pending. -/
def processTurnChat (exec : ToolCall → String) (allCalls : List ToolCall) (iter : ℕ) :
    List ToolCall → List Msg → Option Conversation → ChatTurn
  | [], msgs, pend => .toLoop msgs pend
  | tc :: rest, msgs, pend =>
    if isBridgeTool tc.name then
      let conv : Conversation :=
        match pend with
        | none => { messages := msgs, pendingCalls := [], iteration := iter }
        | some c => c
      let conv := { conv with
        pendingCalls := dictInsert conv.pendingCalls tc.id { tool := tc.name, result := none } }
      let remaining := allCalls.filter (fun x => !hasKey conv.pendingCalls x.id)
      if remaining.isEmpty then .suspend msgs conv
      else processTurnChat exec allCalls iter rest msgs (some conv)
    else
      processTurnChat exec allCalls iter rest
        (msgs ++ [toolResultMsg tc.id tc.name (exec tc)]) pend

/-- The `while iteration < max_iterations` loop of `chat_with_tools`.  The
first argument is structural fuel; callers pass `maxIterations - iter`, so
the fuel runs out exactly when the source's `iteration < max_iterations`
guard fails, and the fuel-exhausted result coincides with the guard-failed
result (the post-loop reply scan). -/
def chatLoop (oracle : ℕ → CompletionResp) (exec : ToolCall → String) :
    ℕ → List Msg → ℕ → Option Conversation → ℕ → OpResult
  | 0, msgs, _iter, pend, ncalls =>
    { outcome := .reply (finalReply msgs fallbackChat), pend := pend, msgs := msgs,
      ncalls := ncalls }
  | fuel + 1, msgs, iter, pend, ncalls =>
    if iter < maxIterations then
      let resp := oracle ncalls
      let msgs' := msgs ++ [assistantMsg resp]
      if resp.toolCalls.isEmpty then
        { outcome := .reply (finalReply msgs' fallbackChat), pend := pend, msgs := msgs',
          ncalls := ncalls + 1 }
      else
        match processTurnChat exec resp.toolCalls (iter + 1) resp.toolCalls msgs' pend with
        | .toLoop m2 p2 => chatLoop oracle exec fuel m2 (iter + 1) p2 (ncalls + 1)
        | .suspend m2 conv =>
          { outcome := .batchBridge (conv.pendingCalls.map (·.1)), pend := some conv,
            msgs := m2, ncalls := ncalls + 1 }
    else
      { outcome := .reply (finalReply msgs fallbackChat), pend := pend, msgs := msgs,
        ncalls := ncalls }

def systemMsg : Msg := { role := "system", content := "TOOL_SYSTEM_PROMPT" }

/-- Embedding of `chat_with_tools`: any existing pending conversation for
the session is discarded, then the loop starts at iteration 0. -/
def startConversation (oracle : ℕ → CompletionResp) (exec : ToolCall → String)
    (history : List Msg) (_pend0 : Option Conversation) : OpResult :=
  chatLoop oracle exec maxIterations (systemMsg :: history) 0 none 0

/-! #### The resumption loop (`tool_reply` / `tool_reply_batch`)

In the source the conversation's stored message list is the same Python
list object the loop appends to, so the stored transcript tracks the live
one; the stored `iteration`, however, is only written when the conversation
record is first created and is never advanced afterwards. -/

inductive ReplyTurn where
  | toLoop (msgs : List Msg) (pcs : List (String × PendingCall))
  | suspendOne (msgs : List Msg) (pcs : List (String × PendingCall))
deriving DecidableEq

/-- Tool-call processing inside the resumption loop: the first bridged call
registers a pending call and returns immediately. -/
def processTurnReply (exec : ToolCall → String) :
    List ToolCall → List Msg → List (String × PendingCall) → ReplyTurn
  | [], msgs, pcs => .toLoop msgs pcs
  | tc :: rest, msgs, pcs =>
    if isBridgeTool tc.name then
      .suspendOne msgs (dictInsert pcs tc.id { tool := tc.name, result := none })
    else
      processTurnReply exec rest (msgs ++ [toolResultMsg tc.id tc.name (exec tc)]) pcs

/-- The continuation loop shared by `tool_reply` and `tool_reply_batch`;
`storedIter` is the iteration recorded in the conversation record, which a
renewed suspension stores back unchanged.  Fuel as in `chatLoop`: callers
pass `maxIterations - iter` and the exhausted case equals the guard-failed
case. -/
def replyLoop (oracle : ℕ → CompletionResp) (exec : ToolCall → String) (storedIter : ℕ)
    (fallback : String) : ℕ → List Msg → ℕ → List (String × PendingCall) → ℕ → OpResult
  | 0, msgs, _iter, _pcs, ncalls =>
    { outcome := .reply (finalReply msgs fallback), pend := none, msgs := msgs,
      ncalls := ncalls }
  | fuel + 1, msgs, iter, pcs, ncalls =>
    if iter < maxIterations then
      let resp := oracle ncalls
      let msgs' := msgs ++ [assistantMsg resp]
      if resp.toolCalls.isEmpty then
        { outcome := .reply (finalReply msgs' fallback), pend := none, msgs := msgs',
          ncalls := ncalls + 1 }
      else
        match processTurnReply exec resp.toolCalls msgs' pcs with
        | .toLoop m2 pcs2 =>
          replyLoop oracle exec storedIter fallback fuel m2 (iter + 1) pcs2 (ncalls + 1)
        | .suspendOne m2 pcs2 =>
          { outcome := .bridgeRequest,
            pend := some { messages := m2, pendingCalls := pcs2, iteration := storedIter },
            msgs := m2, ncalls := ncalls + 1 }
    else
      { outcome := .reply (finalReply msgs fallback), pend := none, msgs := msgs,
        ncalls := ncalls }

/-- Ids of existing tool messages (the duplicate guard's `existing_tool_ids`). -/
def existingToolIds (msgs : List Msg) : List String :=
  (msgs.filter (fun m => m.role == "tool")).filterMap (·.tool_call_id)

/-- The `valid_tool_call_ids` set: tool-call ids of the most recent
assistant message that has tool calls, restricted to the pending-calls map. -/
def lastAssistantPendingIds (msgs : List Msg) (pcs : List (String × PendingCall)) :
    List String :=
  match msgs.reverse.find? (fun m => m.role == "assistant" && !m.toolCalls.isEmpty) with
  | none => []
  | some m => (m.toolCalls.map (·.id)).filter (fun i => hasKey pcs i)

/-- The replay step of both resumption endpoints: append one tool message
per pending call, in insertion order, skipping ids already present in the
transcript and ids outside the valid set.  Serialization of the stored
result (`json.dumps` after NaN sanitization) is carried as the opaque
stored string. -/
def replayAppend (msgs : List Msg) (pcs : List (String × PendingCall)) : List Msg :=
  msgs ++ pcs.filterMap (fun p =>
    if (existingToolIds msgs).contains p.1 then none
    else if !(lastAssistantPendingIds msgs pcs).contains p.1 then none
    else some (toolResultMsg p.1 p.2.tool (p.2.result.getD "")))

/-- Store one result into the matching pending call. -/
def dictSetResult (pcs : List (String × PendingCall)) (callId result : String) :
    List (String × PendingCall) :=
  pcs.map (fun p => if p.1 == callId then (p.1, { p.2 with result := some result }) else p)

/-- Store a batch of results; unknown callIds are skipped (logged with a
warning in the source). -/
def storeResults (pcs : List (String × PendingCall)) :
    List (String × String) → List (String × PendingCall)
  | [] => pcs
  | (cid, r) :: rest =>
    storeResults (if hasKey pcs cid then dictSetResult pcs cid r else pcs) rest

def unresolvedCalls (pcs : List (String × PendingCall)) : List (String × PendingCall) :=
  pcs.filter (fun p => p.2.result.isNone)

/-- Embedding of `tool_reply` (resolveOne). -/
def resolveOne (oracle : ℕ → CompletionResp) (exec : ToolCall → String)
    (pend : Option Conversation) (callId result : String) : OpResult :=
  match pend with
  | none => { outcome := .notFound, pend := none, msgs := [], ncalls := 0 }
  | some conv =>
    if hasKey conv.pendingCalls callId then
      let pcs := dictSetResult conv.pendingCalls callId result
      if (unresolvedCalls pcs).isEmpty then
        replyLoop oracle exec conv.iteration fallbackChat (maxIterations - conv.iteration)
          (replayAppend conv.messages pcs) conv.iteration pcs 0
      else
        { outcome := .waiting (unresolvedCalls pcs).length,
          pend := some { conv with pendingCalls := pcs }, msgs := conv.messages, ncalls := 0 }
    else
      { outcome := .notFound, pend := some conv, msgs := conv.messages, ncalls := 0 }

/-- Embedding of `tool_reply_batch` (resolveBatch). -/
def resolveBatch (oracle : ℕ → CompletionResp) (exec : ToolCall → String)
    (pend : Option Conversation) (results : List (String × String)) : OpResult :=
  match pend with
  | none => { outcome := .notFound, pend := none, msgs := [], ncalls := 0 }
  | some conv =>
    let pcs := storeResults conv.pendingCalls results
    if (unresolvedCalls pcs).isEmpty then
      replyLoop oracle exec conv.iteration fallbackBatch (maxIterations - conv.iteration)
        (replayAppend conv.messages pcs) conv.iteration pcs 0
    else
      { outcome := .waiting (unresolvedCalls pcs).length,
        pend := some { conv with pendingCalls := pcs }, msgs := conv.messages, ncalls := 0 }

/-! #### Whole-conversation runs (for the cross-suspension round-trip count) -/

structure ResolveOp where
  isBatch : Bool
  callId : String := ""
  result : String := ""
  results : List (String × String) := []
  oracle : ℕ → CompletionResp

def applyResolve (exec : ToolCall → String) (pend : Option Conversation)
    (op : ResolveOp) : OpResult :=
  if op.isBatch then resolveBatch op.oracle exec pend op.results
  else resolveOne op.oracle exec pend op.callId op.result

/-- Run a sequence of resumption requests against the session state,
accumulating the total number of completion-service calls. -/
def runResolves (exec : ToolCall → String) :
    Option Conversation → List ResolveOp → Option Conversation × ℕ
  | pend, [] => (pend, 0)
  | pend, op :: rest =>
    let r := applyResolve exec pend op
    let rec' := runResolves exec r.pend rest
    (rec'.1, r.ncalls + rec'.2)

/-! ## Supporting lemmas -/

section WindowLemmas

lemma foldl_min_le (l : List Row) (a : ℚ) :
    l.foldl (fun b x => min b x.time_boot_ms) a ≤ a := by
  induction l generalizing a with
  | nil => simp
  | cons x xs ih => exact le_trans (ih _) (min_le_left _ _)

lemma foldl_min_le_mem {l : List Row} {r : Row} (h : r ∈ l) (a : ℚ) :
    l.foldl (fun b x => min b x.time_boot_ms) a ≤ r.time_boot_ms := by
  induction l generalizing a with
  | nil => cases h
  | cons x xs ih =>
    rcases List.mem_cons.mp h with h | h
    · subst h
      exact le_trans (foldl_min_le xs _) (min_le_right _ _)
    · exact ih h _

lemma le_foldl_max (l : List Row) (a : ℚ) :
    a ≤ l.foldl (fun b x => max b x.time_boot_ms) a := by
  induction l generalizing a with
  | nil => simp
  | cons x xs ih => exact le_trans (le_max_left _ _) (ih _)

lemma mem_le_foldl_max {l : List Row} {r : Row} (h : r ∈ l) (a : ℚ) :
    r.time_boot_ms ≤ l.foldl (fun b x => max b x.time_boot_ms) a := by
  induction l generalizing a with
  | nil => cases h
  | cons x xs ih =>
    rcases List.mem_cons.mp h with h | h
    · subst h
      exact le_trans (le_max_right _ _) (le_foldl_max xs _)
    · exact ih h _

lemma minTime_le_mem {rows : List Row} {r : Row} (h : r ∈ rows) :
    minTime rows ≤ r.time_boot_ms := by
  cases rows with
  | nil => cases h
  | cons x xs =>
    rcases List.mem_cons.mp h with h | h
    · subst h; exact foldl_min_le xs _
    · exact foldl_min_le_mem h _

lemma mem_le_maxTime {rows : List Row} {r : Row} (h : r ∈ rows) :
    r.time_boot_ms ≤ maxTime rows := by
  cases rows with
  | nil => cases h
  | cons x xs =>
    rcases List.mem_cons.mp h with h | h
    · subst h; exact le_foldl_max xs _
    · exact mem_le_foldl_max h _

lemma durationMs_nonneg {rows : List Row} (h : rows ≠ []) : 0 ≤ durationMs rows := by
  cases rows with
  | nil => exact absurd rfl h
  | cons x xs =>
    have h1 := @minTime_le_mem (x :: xs) x (List.mem_cons_self _ _)
    have h2 := @mem_le_maxTime (x :: xs) x (List.mem_cons_self _ _)
    unfold durationMs
    linarith

lemma one_le_numWindows (rows : List Row) (w : ℚ) : 1 ≤ numWindows rows w := by
  unfold numWindows
  have h : (1 : ℤ) ≤ max 1 ⌊durationMs rows / w⌋ := le_max_left _ _
  omega

lemma numWindows_mul_step {rows : List Row} (w : ℚ) :
    (numWindows rows w : ℚ) * windowStep rows w = durationMs rows := by
  have h := one_le_numWindows rows w
  have hne : (numWindows rows w : ℚ) ≠ 0 := by
    have : numWindows rows w ≠ 0 := by omega
    exact_mod_cast this
  unfold windowStep
  field_simp

/-- When the duration is an exact multiple of the nominal window size (so the
effective step equals the nominal size), every fetched record lies in at
least one window. -/
lemma coverage_of_exact {rows : List Row} {w : ℚ} (hw : 0 < w)
    (hs : windowStep rows w = w) {r : Row} (hr : r ∈ rows) :
    ∃ i, i < numWindows rows w ∧ windowStart rows w i ≤ r.time_boot_ms ∧
      r.time_boot_ms ≤ windowEnd rows w i := by
  set m := minTime rows with hm
  set t := r.time_boot_ms with htt
  set cnt := numWindows rows w with hcntdef
  have hcnt : 1 ≤ cnt := one_le_numWindows rows w
  have hd : (cnt : ℚ) * w = durationMs rows := by
    rw [← hs]; exact numWindows_mul_step w
  have h1 : m ≤ t := minTime_le_mem hr
  have h2 : t ≤ m + (cnt : ℚ) * w := by
    have h3 := mem_le_maxTime hr
    have h4 : durationMs rows = maxTime rows - minTime rows := rfl
    rw [hd, h4]
    linarith
  set j : ℤ := ⌊(t - m) / w⌋ with hj
  have hj0 : 0 ≤ j := Int.floor_nonneg.mpr (div_nonneg (by linarith) hw.le)
  by_cases hcase : j ≤ (cnt : ℤ) - 1
  · refine ⟨j.toNat, by omega, ?_, ?_⟩
    · have hfl : ((j : ℚ)) ≤ (t - m) / w := Int.floor_le _
      have hmul : (j : ℚ) * w ≤ t - m := (le_div_iff₀ hw).mp hfl
      have hcast : ((j.toNat : ℕ) : ℚ) = (j : ℚ) := by
        rw_mod_cast [Int.toNat_of_nonneg hj0]
      unfold windowStart
      rw [hs, ← hm, hcast]
      linarith
    · have hfl : (t - m) / w < (j : ℚ) + 1 := Int.lt_floor_add_one _
      have hmul : t - m < ((j : ℚ) + 1) * w := (div_lt_iff₀ hw).mp hfl
      have hcast : ((j.toNat : ℕ) : ℚ) = (j : ℚ) := by
        rw_mod_cast [Int.toNat_of_nonneg hj0]
      unfold windowEnd windowStart
      rw [hs, ← hm, hcast]
      nlinarith
  · push_neg at hcase
    have hjc : (cnt : ℤ) ≤ j := by omega
    have hge : ((cnt : ℤ) : ℚ) ≤ (t - m) / w :=
      le_trans (by exact_mod_cast hjc) (Int.floor_le _)
    have hge' : (cnt : ℚ) * w ≤ t - m := by
      have := (le_div_iff₀ hw).mp hge
      exact_mod_cast this
    have ht : t = m + (cnt : ℚ) * w := le_antisymm h2 (by linarith)
    have hc1 : ((cnt - 1 : ℕ) : ℚ) = (cnt : ℚ) - 1 := by
      push_cast [Nat.cast_sub hcnt]
      ring
    refine ⟨cnt - 1, by omega, ?_, ?_⟩
    · unfold windowStart
      rw [hs, ← hm, hc1, ht]
      nlinarith
    · unfold windowEnd windowStart
      rw [hs, ← hm, hc1, ht]
      ring_nf
      nlinarith

end WindowLemmas

/-! ## Claim C1 — windowing rule -/

/-- Claim C1 as stated: both statistics tools use
`windowCount = max(1, floor(duration / nominal))` and effective width
`duration / windowCount`, and window `i` is the closed-closed interval
from `min + i*width` to `min + i*width + width` (so every produced
window's `end_ms` is its `start_ms` plus the effective width), adjacent
windows share their boundary, and every fetched record falls in at least
one window. -/
def claimC1Statement : Prop :=
  ∀ (rows : List Row) (fields : List String) (w sigma : ℚ), rows ≠ [] → 0 < w →
    ((calculate_rolling_statistics rows fields w).num_windows
        = (max 1 ⌊durationMs rows / w⌋).toNat ∧
     (∀ win ∈ (calculate_rolling_statistics rows fields w).windows,
        win.start_ms = minTime rows + win.window_index * windowStep rows w ∧
        win.end_ms = win.start_ms + windowStep rows w) ∧
     (∀ e ∈ (detect_outliers_with_dynamic_thresholds rows fields sigma w).outliers,
        e.end_ms = e.start_ms + windowStep rows w) ∧
     (∀ i : ℕ, i + 1 < numWindows rows w → windowEnd rows w i = windowStart rows w (i + 1)) ∧
     (∀ r ∈ rows, ∃ i, i < numWindows rows w ∧
        windowStart rows w i ≤ r.time_boot_ms ∧ r.time_boot_ms ≤ windowEnd rows w i))

/-- Three records spanning 100000 ms with a middle record at 31000 ms. -/
def cexRowsC1 : List Row :=
  [{ time_boot_ms := 0 }, { time_boot_ms := 31000 }, { time_boot_ms := 100000 }]

lemma minTime_cexC1 : minTime cexRowsC1 = 0 := by
  norm_num [minTime, cexRowsC1, min_def]

lemma maxTime_cexC1 : maxTime cexRowsC1 = 100000 := by
  norm_num [maxTime, cexRowsC1, max_def]

lemma durationMs_cexC1 : durationMs cexRowsC1 = 100000 := by
  norm_num [durationMs, minTime_cexC1, maxTime_cexC1]

lemma numWindows_cexC1 : numWindows cexRowsC1 30000 = 3 := by
  norm_num [numWindows, durationMs_cexC1]
  rfl

lemma windowStep_cexC1 : windowStep cexRowsC1 30000 = 100000 / 3 := by
  norm_num [windowStep, numWindows_cexC1, durationMs_cexC1]

lemma windowStart0_cexC1 : windowStart cexRowsC1 30000 0 = 0 := by
  norm_num [windowStart, minTime_cexC1]

lemma windowEnd0_cexC1 : windowEnd cexRowsC1 30000 0 = 30000 := by
  norm_num [windowEnd, windowStart0_cexC1]

/-- The first window produced on `cexRowsC1` with nominal size 30000. -/
def cexWin0 : WindowData :=
  ⟨0, windowStart cexRowsC1 30000 0, windowEnd cexRowsC1 30000 0, []⟩

/-- Counterexample to C1: with records spanning 100000 ms and a nominal
window of 30000 ms, the first produced window is `[0, 30000]` — its end is
`start + 30000` (the nominal size), not `start + 100000/3` (the effective
width) as the claim requires. -/
theorem claim_C1_cex : ¬ claimC1Statement := by
  intro h
  obtain ⟨-, h2, -, -, -⟩ := h cexRowsC1 [] 30000 (5/2) (by decide) (by norm_num)
  have hmem : cexWin0 ∈ (calculate_rolling_statistics cexRowsC1 [] 30000).windows := by
    unfold calculate_rolling_statistics
    rw [if_neg (by decide)]
    refine List.mem_map.mpr ⟨0, List.mem_range.mpr ?_, rfl⟩
    have := one_le_numWindows cexRowsC1 30000
    omega
  obtain ⟨-, hend⟩ := h2 _ hmem
  have hend' : windowEnd cexRowsC1 30000 0
      = windowStart cexRowsC1 30000 0 + windowStep cexRowsC1 30000 := hend
  rw [windowEnd0_cexC1, windowStart0_cexC1, windowStep_cexC1] at hend'
  norm_num at hend'

/-- Claim C1, amended: the window count and start positions are as claimed
(`max(1, floor(duration/nominal))` windows, starting at `min + i·step` with
step `duration/count`), but each window's end is its start plus the
**nominal** window size, in both the baseline and the outlier tool; the
shared-boundary and full-coverage properties hold exactly when the duration
is an exact multiple of the nominal size (step = nominal); in the example,
duration 100000 ms with nominal 30000 ms gives 3 windows of effective step
100000/3 ≈ 33333.3 ms. -/
theorem C1_windowing (rows : List Row) (fields : List String) (w sigma : ℚ)
    (hne : rows ≠ []) (hw : 0 < w) :
    ((calculate_rolling_statistics rows fields w).num_windows
        = (max 1 ⌊durationMs rows / w⌋).toNat ∧
     (∀ win ∈ (calculate_rolling_statistics rows fields w).windows,
        win.start_ms = minTime rows + win.window_index * windowStep rows w ∧
        win.end_ms = win.start_ms + w) ∧
     (∀ e ∈ (detect_outliers_with_dynamic_thresholds rows fields sigma w).outliers,
        e.start_ms = minTime rows + e.window_index * windowStep rows w ∧
        e.end_ms = e.start_ms + w)) ∧
    (windowStep rows w = w →
      (∀ i : ℕ, windowEnd rows w i = windowStart rows w (i + 1)) ∧
      (∀ r ∈ rows, ∃ i, i < numWindows rows w ∧
        windowStart rows w i ≤ r.time_boot_ms ∧ r.time_boot_ms ≤ windowEnd rows w i)) ∧
    (numWindows cexRowsC1 30000 = 3 ∧ windowStep cexRowsC1 30000 = 100000 / 3) := by
  obtain ⟨x, xs, rfl⟩ : ∃ y ys, rows = y :: ys := by
    cases rows with
    | nil => exact absurd rfl hne
    | cons y ys => exact ⟨y, ys, rfl⟩
  refine ⟨⟨?_, ?_, ?_⟩, ?_, numWindows_cexC1, windowStep_cexC1⟩
  · simp [calculate_rolling_statistics, numWindows]
  · intro win hwin
    simp only [calculate_rolling_statistics, List.isEmpty_cons, if_false] at hwin
    obtain ⟨i, hi, rfl⟩ := List.mem_map.mp hwin
    exact ⟨rfl, rfl⟩
  · intro e he
    simp only [detect_outliers_with_dynamic_thresholds, List.isEmpty_cons, if_false] at he
    obtain ⟨i, hi, he⟩ := List.mem_flatMap.mp he
    obtain ⟨f, hf, hee⟩ := List.mem_filterMap.mp he
    unfold outlierEntry at hee
    by_cases hlen : (fieldValues (windowRecords (x :: xs) w i) f).length < 3
    · rw [if_pos hlen] at hee
      cases hee
    · rw [if_neg hlen] at hee
      simp only [Option.some.injEq] at hee
      subst hee
      exact ⟨rfl, rfl⟩
  · intro hs
    refine ⟨?_, fun r hr => coverage_of_exact hw hs hr⟩
    intro i
    unfold windowEnd windowStart
    rw [hs]
    push_cast
    ring

/-- Witness for the amended C1 at the concrete example input. -/
theorem C1_windowing_witness :
    ((calculate_rolling_statistics cexRowsC1 ["f"] 30000).num_windows
        = (max 1 ⌊durationMs cexRowsC1 / 30000⌋).toNat) ∧
    (numWindows cexRowsC1 30000 = 3 ∧ windowStep cexRowsC1 30000 = 100000 / 3) := by
  have h := C1_windowing cexRowsC1 ["f"] 30000 (5/2) (by decide) (by norm_num)
  exact ⟨h.1.1, h.2.2⟩

/-! ## Claim C6 — baseline statistics -/

/-- The samples of field `p.1` in the window of index `win.window_index`. -/
def winVals (rows : List Row) (w : ℚ) (win : WindowData) (f : String) : List ℚ :=
  fieldValues (windowRecords rows w win.window_index) f

/-- Claim C6 as stated: below 2 samples the report is all-null; otherwise
mean, std, min and max are **each** rounded to 3 decimal places; and the
analysis fails (not-ok) when the fetch is empty/failed or yields fewer than
10 records. -/
def claimC6Statement : Prop :=
  (∀ (rows : List Row) (fields : List String) (w : ℚ), rows ≠ [] →
    ∀ win ∈ (calculate_rolling_statistics rows fields w).windows,
      ∀ p ∈ win.fields,
        ((winVals rows w win p.1).length < 2 →
          p.2.sample_count = (winVals rows w win p.1).length ∧ p.2.mean = none ∧
          p.2.std = none ∧ p.2.min = none ∧ p.2.max = none) ∧
        (2 ≤ (winVals rows w win p.1).length →
          p.2.mean = some (roundTo 3 (listMean (winVals rows w win p.1))) ∧
          p.2.std = some (roundToR 3 (Real.sqrt (listVariance (winVals rows w win p.1)))) ∧
          p.2.min = some (roundTo 3 (listMin (winVals rows w win p.1))) ∧
          p.2.max = some (roundTo 3 (listMax (winVals rows w win p.1))))) ∧
  (∀ (store : SessionStore) (sid stream : String) (fields : List String) (w : ℚ),
    ((get_telemetry_data_internal store sid stream fields none none 10000).ok = false ∨
      (get_telemetry_data_internal store sid stream fields none none 10000).rows.length < 10) →
    (analyze_flight_baseline_impl store sid stream fields w).ok = false)

/-- Three records in a single window whose field `f` has samples
`[0.1234, 1, 2]` (minimum not representable in 3 decimals). -/
def cexRowsC6 : List Row :=
  [{ time_boot_ms := 0, vals := [("f", some (1234/10000))] },
   { time_boot_ms := 1000, vals := [("f", some 1)] },
   { time_boot_ms := 2000, vals := [("f", some 2)] }]

lemma minTime_cexC6 : minTime cexRowsC6 = 0 := by
  norm_num [minTime, cexRowsC6, min_def]

lemma maxTime_cexC6 : maxTime cexRowsC6 = 2000 := by
  norm_num [maxTime, cexRowsC6, max_def]

lemma numWindows_cexC6 : numWindows cexRowsC6 30000 = 1 := by
  norm_num [numWindows, durationMs, minTime_cexC6, maxTime_cexC6]

lemma windowStart_cexC6 : windowStart cexRowsC6 30000 0 = 0 := by
  norm_num [windowStart, minTime_cexC6]

lemma windowEnd_cexC6 : windowEnd cexRowsC6 30000 0 = 30000 := by
  norm_num [windowEnd, windowStart_cexC6]

lemma windowRecords_cexC6 : windowRecords cexRowsC6 30000 0 = cexRowsC6 := by
  unfold windowRecords
  rw [windowStart_cexC6, windowEnd_cexC6]
  norm_num [cexRowsC6, List.filter]

lemma fieldValues_cexC6 :
    fieldValues (windowRecords cexRowsC6 30000 0) "f" = [1234/10000, 1, 2] := by
  rw [windowRecords_cexC6]
  norm_num [fieldValues, cexRowsC6, Row.get, List.filterMap, List.find?]

/-- The single window produced on `cexRowsC6`. -/
noncomputable def cexWin6 : WindowData :=
  ⟨0, windowStart cexRowsC6 30000 0, windowEnd cexRowsC6 30000 0,
    [("f", windowFieldStats (fieldValues (windowRecords cexRowsC6 30000 0) "f"))]⟩

/-- Counterexample to C6: the source reports the window minimum raw, not
rounded — with samples `[0.1234, 1, 2]` the reported minimum is `0.1234`,
while the claim forces `round(0.1234, 3) = 0.123`. -/
theorem claim_C6_cex : ¬ claimC6Statement := by
  intro h
  obtain ⟨h1, -⟩ := h
  have hwin : cexWin6 ∈ (calculate_rolling_statistics cexRowsC6 ["f"] 30000).windows := by
    unfold calculate_rolling_statistics
    rw [if_neg (by decide)]
    refine List.mem_map.mpr ⟨0, List.mem_range.mpr ?_, rfl⟩
    rw [numWindows_cexC6]
    omega
  obtain ⟨-, h2⟩ := h1 cexRowsC6 ["f"] 30000 (by decide) _ hwin
      ("f", windowFieldStats (fieldValues (windowRecords cexRowsC6 30000 0) "f"))
      (List.mem_singleton.mpr rfl)
  have hlen : winVals cexRowsC6 30000 cexWin6
      (("f", windowFieldStats (fieldValues (windowRecords cexRowsC6 30000 0) "f"))).1
      = [1234/10000, 1, 2] := by
    unfold winVals cexWin6
    exact fieldValues_cexC6
  obtain ⟨-, -, hmin, -⟩ := h2 (by rw [hlen]; norm_num)
  rw [hlen] at hmin
  have hmin' : (windowFieldStats (fieldValues (windowRecords cexRowsC6 30000 0) "f")).min
      = some (roundTo 3 (listMin [1234/10000, 1, 2])) := hmin
  have hraw : (windowFieldStats (fieldValues (windowRecords cexRowsC6 30000 0) "f")).min
      = some (1234/10000 : ℚ) := by
    rw [fieldValues_cexC6]
    norm_num [windowFieldStats, listMin, min_def]
  rw [hraw] at hmin'
  have h9 : (1234/10000 : ℚ) = roundTo 3 (listMin [1234/10000, 1, 2]) :=
    Option.some.inj hmin'
  norm_num [roundTo, pyRound, round_eq, listMin, min_def] at h9

lemma windowFieldStats_lt {vs : List ℚ} (h : vs.length < 2) :
    windowFieldStats vs = ⟨vs.length, none, none, none, none⟩ := by
  unfold windowFieldStats
  rw [if_pos h]

lemma windowFieldStats_ge {vs : List ℚ} (h : 2 ≤ vs.length) :
    windowFieldStats vs = ⟨vs.length, some (roundTo 3 (listMean vs)),
      some (roundToR 3 (Real.sqrt (listVariance vs))), some (listMin vs),
      some (listMax vs)⟩ := by
  unfold windowFieldStats
  rw [if_neg (by omega)]

lemma listVariance_123 : listVariance [1, 2, 3] = 2/3 := by
  norm_num [listVariance, listMean]

/-- Rounding the real standard deviation of `[1,2,3]` to three decimals
gives exactly 0.816. -/
lemma roundToR_sqrt_two_thirds :
    roundToR 3 (Real.sqrt ((2/3 : ℚ) : ℝ)) = 816/1000 := by
  have h23 : ((2/3 : ℚ) : ℝ) = 2/3 := by norm_num
  rw [h23]
  set x := Real.sqrt (2/3 : ℝ) with hx
  have hx0 : 0 ≤ x := Real.sqrt_nonneg _
  have hx2 : x ^ 2 = 2/3 := Real.sq_sqrt (by norm_num)
  have hlb : (8164/10000 : ℝ) < x := by
    nlinarith [hx2, hx0, sq_nonneg (x - 8164/10000), sq_nonneg (x + 8164/10000)]
  have hub : x < (8165/10000 : ℝ) := by
    nlinarith [hx2, hx0, sq_nonneg (x - 8165/10000), sq_nonneg (x + 8165/10000)]
  unfold roundToR pyRoundR
  have hfloor : ⌊x * 10 ^ 3⌋ = 816 := by
    rw [Int.floor_eq_iff]
    constructor
    · push_cast
      nlinarith
    · push_cast
      nlinarith
  rw [hfloor]
  rw [if_neg (by push_cast; nlinarith)]
  have hround : round (x * 10 ^ 3) = 816 := by
    rw [round_eq, Int.floor_eq_iff]
    constructor
    · push_cast
      nlinarith
    · push_cast
      nlinarith
  rw [hround]
  norm_num

/-- Claim C6, amended: each per-window per-field report is all-null below 2
samples and otherwise carries the population mean and standard deviation
rounded to 3 decimals together with the **raw** (unrounded) minimum and
maximum; the analysis returns a not-ok result whenever the fetch fails (in
particular on an empty stream) or yields fewer than 10 records; samples
`[1,2,3]` give mean 2.0 and std `sqrt(2/3) ≈ 0.816`. -/
theorem C6_baseline (rows : List Row) (fields : List String) (w : ℚ) (hne : rows ≠ []) :
    (∀ win ∈ (calculate_rolling_statistics rows fields w).windows,
      ∀ p ∈ win.fields,
        p.2 = windowFieldStats (winVals rows w win p.1) ∧
        ((winVals rows w win p.1).length < 2 →
          p.2.sample_count = (winVals rows w win p.1).length ∧ p.2.mean = none ∧
          p.2.std = none ∧ p.2.min = none ∧ p.2.max = none) ∧
        (2 ≤ (winVals rows w win p.1).length →
          p.2.mean = some (roundTo 3 (listMean (winVals rows w win p.1))) ∧
          p.2.std = some (roundToR 3 (Real.sqrt (listVariance (winVals rows w win p.1)))) ∧
          p.2.min = some (listMin (winVals rows w win p.1)) ∧
          p.2.max = some (listMax (winVals rows w win p.1)))) ∧
    (∀ (store : SessionStore) (sid stream : String) (flds : List String) (w' : ℚ),
      ((get_telemetry_data_internal store sid stream flds none none 10000).ok = false ∨
        (get_telemetry_data_internal store sid stream flds none none 10000).rows.length < 10) →
      (analyze_flight_baseline_impl store sid stream flds w').ok = false) ∧
    ((windowFieldStats [1, 2, 3]).mean = some 2 ∧
      (windowFieldStats [1, 2, 3]).std = some ((816/1000 : ℝ)) ∧
      listVariance [1, 2, 3] = 2/3) := by
  refine ⟨?_, ?_, ?_, ?_, listVariance_123⟩
  · obtain ⟨x, xs, rfl⟩ : ∃ y ys, rows = y :: ys := by
      cases rows with
      | nil => exact absurd rfl hne
      | cons y ys => exact ⟨y, ys, rfl⟩
    intro win hwin p hp
    simp only [calculate_rolling_statistics, List.isEmpty_cons, if_false] at hwin
    obtain ⟨i, hi, rfl⟩ := List.mem_map.mp hwin
    obtain ⟨f, hf, rfl⟩ := List.mem_map.mp hp
    refine ⟨rfl, ?_, ?_⟩
    · intro hlt
      have hws := @windowFieldStats_lt (fieldValues (windowRecords (x :: xs) w i) f) hlt
      simp only [winVals] at hlt ⊢
      simp [hws]
    · intro hge
      have hws := @windowFieldStats_ge (fieldValues (windowRecords (x :: xs) w i) f) hge
      simp only [winVals] at hge ⊢
      simp [hws]
  · intro store sid stream flds w' h
    unfold analyze_flight_baseline_impl
    cases halk : alookup store sid with
    | none => simp
    | some s =>
      simp only
      by_cases hok : (get_telemetry_data_internal store sid stream flds none none 10000).ok
      · have hlen : (get_telemetry_data_internal store sid stream flds none none 10000).rows.length < 10 := by
          rcases h with h | h
          · rw [h] at hok
            cases hok
          · exact h
        simp [hok, hlen]
      · simp only [Bool.not_eq_true] at hok
        simp [hok]
  · rw [windowFieldStats_ge (by norm_num)]
    norm_num [listMean, roundTo, pyRound, round_eq]
  · rw [windowFieldStats_ge (by norm_num)]
    rw [listVariance_123]
    simp only [Option.some.injEq]
    exact roundToR_sqrt_two_thirds

/-- Witness for the amended C6: the `[1,2,3]` example values and a failing
analysis on an unknown session. -/
theorem C6_baseline_witness :
    ((windowFieldStats [1, 2, 3]).mean = some 2 ∧
      (windowFieldStats [1, 2, 3]).std = some ((816/1000 : ℝ)) ∧
      listVariance [1, 2, 3] = 2/3) ∧
    (analyze_flight_baseline_impl [] "s" "VFR_HUD" ["f"] 30000).ok = false := by
  have h := C6_baseline cexRowsC6 ["f"] 30000 (by decide)
  exact ⟨h.2.2, h.2.1 [] "s" "VFR_HUD" ["f"] 30000 (Or.inl rfl)⟩

/-! ## Claim C7 — outlier detection -/

lemma listVariance_nonneg (vs : List ℚ) : 0 ≤ listVariance vs := by
  unfold listVariance
  apply div_nonneg
  · apply List.sum_nonneg
    intro x hx
    obtain ⟨y, -, rfl⟩ := List.mem_map.mp hx
    positivity
  · positivity

/-- The decidable comparator agrees with the source's real-valued test
`s * sqrt v < b`. -/
lemma mulSqrtLt_iff {s v b : ℚ} (hv : 0 ≤ v) :
    mulSqrtLt s v b = true ↔ (s : ℝ) * Real.sqrt (v : ℝ) < (b : ℝ) := by
  have h0 : (0 : ℝ) ≤ Real.sqrt (v : ℝ) := Real.sqrt_nonneg _
  have hsq : Real.sqrt (v : ℝ) ^ 2 = (v : ℝ) := Real.sq_sqrt (by exact_mod_cast hv)
  set y : ℝ := (s : ℝ) * Real.sqrt (v : ℝ) with hy
  have hy2 : y ^ 2 = (s : ℝ) ^ 2 * (v : ℝ) := by
    rw [hy, mul_pow, hsq]
  unfold mulSqrtLt
  by_cases hs : (0 : ℚ) ≤ s
  · have hy0 : 0 ≤ y := mul_nonneg (by exact_mod_cast hs) h0
    rw [if_pos hs]
    by_cases hb : b ≤ 0
    · rw [if_pos hb]
      have hb' : (b : ℝ) ≤ 0 := by exact_mod_cast hb
      constructor
      · intro h
        cases h
      · intro h
        exfalso
        linarith
    · rw [if_neg hb]
      push_neg at hb
      have hb' : (0 : ℝ) < (b : ℝ) := by exact_mod_cast hb
      simp only [decide_eq_true_eq]
      constructor
      · intro h
        have h' : (s : ℝ) ^ 2 * (v : ℝ) < (b : ℝ) ^ 2 := by exact_mod_cast h
        by_contra hc
        push_neg at hc
        have h2 := pow_le_pow_left₀ hb'.le hc 2
        rw [hy2] at h2
        linarith
      · intro h
        have h2 := pow_lt_pow_left₀ h hy0 (by norm_num : (2:ℕ) ≠ 0)
        rw [hy2] at h2
        exact_mod_cast h2
  · push_neg at hs
    have hy0 : y ≤ 0 :=
      mul_nonpos_iff.mpr (Or.inr ⟨by exact_mod_cast hs.le, h0⟩)
    rw [if_neg (not_le.mpr hs)]
    by_cases hb : 0 < b
    · rw [if_pos hb]
      have hb' : (0 : ℝ) < (b : ℝ) := by exact_mod_cast hb
      simp only [true_iff]
      linarith
    · rw [if_neg hb]
      push_neg at hb
      have hb' : (b : ℝ) ≤ 0 := by exact_mod_cast hb
      simp only [decide_eq_true_eq]
      constructor
      · intro h
        have h' : (b : ℝ) ^ 2 < (s : ℝ) ^ 2 * (v : ℝ) := by exact_mod_cast h
        by_contra hc
        push_neg at hc
        have h1 : -y ≤ -b := by linarith
        have h2 : (0 : ℝ) ≤ -y := by linarith
        have h4 := pow_le_pow_left₀ h2 h1 2
        have h5 : y ^ 2 ≤ (b : ℝ) ^ 2 := by nlinarith [h4]
        rw [hy2] at h5
        linarith
      · intro h
        have h1 : -(b : ℝ) < -y := by linarith
        have h3 : (0 : ℝ) ≤ -(b : ℝ) := by linarith
        have h4 := pow_lt_pow_left₀ h1 h3 (by norm_num : (2:ℕ) ≠ 0)
        have h5 : (b : ℝ) ^ 2 < y ^ 2 := by nlinarith [h4]
        rw [hy2] at h5
        exact_mod_cast h5

/-- The decidable comparator agrees with the source's real-valued test
`a < s * sqrt v`. -/
lemma ltMulSqrt_iff {a s v : ℚ} (hv : 0 ≤ v) :
    ltMulSqrt a s v = true ↔ (a : ℝ) < (s : ℝ) * Real.sqrt (v : ℝ) := by
  have h0 : (0 : ℝ) ≤ Real.sqrt (v : ℝ) := Real.sqrt_nonneg _
  have hsq : Real.sqrt (v : ℝ) ^ 2 = (v : ℝ) := Real.sq_sqrt (by exact_mod_cast hv)
  set y : ℝ := (s : ℝ) * Real.sqrt (v : ℝ) with hy
  have hy2 : y ^ 2 = (s : ℝ) ^ 2 * (v : ℝ) := by
    rw [hy, mul_pow, hsq]
  unfold ltMulSqrt
  by_cases hs : (0 : ℚ) ≤ s
  · have hy0 : 0 ≤ y := mul_nonneg (by exact_mod_cast hs) h0
    rw [if_pos hs]
    by_cases ha : a < 0
    · rw [if_pos ha]
      have ha' : (a : ℝ) < 0 := by exact_mod_cast ha
      simp only [true_iff]
      linarith
    · rw [if_neg ha]
      push_neg at ha
      have ha' : (0 : ℝ) ≤ (a : ℝ) := by exact_mod_cast ha
      simp only [decide_eq_true_eq]
      constructor
      · intro h
        have h' : (a : ℝ) ^ 2 < (s : ℝ) ^ 2 * (v : ℝ) := by exact_mod_cast h
        by_contra hc
        push_neg at hc
        have h2 := pow_le_pow_left₀ hy0 hc 2
        rw [hy2] at h2
        linarith
      · intro h
        have h2 := pow_lt_pow_left₀ h ha' (by norm_num : (2:ℕ) ≠ 0)
        rw [hy2] at h2
        exact_mod_cast h2
  · push_neg at hs
    have hy0 : y ≤ 0 :=
      mul_nonpos_iff.mpr (Or.inr ⟨by exact_mod_cast hs.le, h0⟩)
    rw [if_neg (not_le.mpr hs)]
    by_cases ha : 0 ≤ a
    · rw [if_pos ha]
      have ha' : (0 : ℝ) ≤ (a : ℝ) := by exact_mod_cast ha
      constructor
      · intro h
        cases h
      · intro h
        exfalso
        linarith
    · rw [if_neg ha]
      push_neg at ha
      have ha' : (a : ℝ) < 0 := by exact_mod_cast ha
      simp only [decide_eq_true_eq]
      constructor
      · intro h
        have h' : (s : ℝ) ^ 2 * (v : ℝ) < (a : ℝ) ^ 2 := by exact_mod_cast h
        by_contra hc
        push_neg at hc
        have h1 : -(a : ℝ) ≤ -y := by linarith
        have h2 : (0 : ℝ) ≤ -(a : ℝ) := by linarith
        have h4 := pow_le_pow_left₀ h2 h1 2
        have h5 : (a : ℝ) ^ 2 ≤ y ^ 2 := by nlinarith [h4]
        rw [hy2] at h5
        linarith
      · intro h
        have h1 : -y < -(a : ℝ) := by linarith
        have h3 : (0 : ℝ) ≤ -y := by linarith
        have h4 := pow_lt_pow_left₀ h1 h3 (by norm_num : (2:ℕ) ≠ 0)
        have h5 : y ^ 2 < (a : ℝ) ^ 2 := by nlinarith [h4]
        rw [hy2] at h5
        exact_mod_cast h5

/-- The source's combined outlier condition in real arithmetic. -/
lemma outlierCheck_iff {x m s v : ℚ} (hv : 0 ≤ v) :
    outlierCheck x m s v = true ↔
      ((x : ℝ) > (m : ℝ) + (s : ℝ) * Real.sqrt (v : ℝ) ∨
        (x : ℝ) < (m : ℝ) - (s : ℝ) * Real.sqrt (v : ℝ)) := by
  unfold outlierCheck
  rw [Bool.or_eq_true, mulSqrtLt_iff hv, ltMulSqrt_iff hv]
  constructor
  · rintro (h | h)
    · left
      push_cast at h
      linarith
    · right
      push_cast at h
      linarith
  · rintro (h | h)
    · left
      push_cast
      linarith
    · right
      push_cast
      linarith

open Classical in
/-- Specification-shaped outlier point list: exactly the numeric samples of
the window strictly outside `[mean - sigma*std, mean + sigma*std]`, each
carrying its raw value, sigma deviation and absolute deviation magnitude. -/
noncomputable def outlierPointsSpec (rows : List Row) (sigma w : ℚ) (i : ℕ) (f : String) :
    List OutlierPoint :=
  let recs := windowRecords rows w i
  let vs := fieldValues recs f
  let m := listMean vs
  let v := listVariance vs
  recs.filterMap (fun r =>
    match r.get f with
    | some x =>
      if (x : ℝ) > (m : ℝ) + (sigma : ℝ) * Real.sqrt (v : ℝ) ∨
          (x : ℝ) < (m : ℝ) - (sigma : ℝ) * Real.sqrt (v : ℝ) then
        some { timestamp := r.time_boot_ms, value := x,
               deviation_sigma := roundToR 2 (deviationSigma x m v),
               deviation_magnitude := roundTo 3 |x - m| }
      else none
    | none => none)

lemma filterMap_ext {α β : Type} {f g : α → Option β} :
    ∀ {l : List α}, (∀ a ∈ l, f a = g a) → l.filterMap f = l.filterMap g := by
  intro l
  induction l with
  | nil => intro _; rfl
  | cons x xs ih =>
    intro h
    simp only [List.filterMap_cons]
    rw [h x (List.mem_cons_self _ _), ih (fun a ha => h a (List.mem_cons.mpr (Or.inr ha)))]

/-- Unfolding of a successfully produced outlier entry. -/
lemma outlierEntry_some {rows : List Row} {sigma w : ℚ} {i : ℕ} {f : String}
    {e : OutlierEntry} (h : outlierEntry rows sigma w i f = some e) :
    3 ≤ (fieldValues (windowRecords rows w i) f).length ∧
    e.window_index = i ∧ e.field = f ∧
    e.outlier_count = e.outlier_points.length ∧
    e.outlier_points = outlierPointsSpec rows sigma w i f := by
  unfold outlierEntry at h
  by_cases hlen : (fieldValues (windowRecords rows w i) f).length < 3
  · rw [if_pos hlen] at h
    cases h
  · rw [if_neg hlen] at h
    push_neg at hlen
    obtain rfl := Option.some.inj h
    refine ⟨hlen, rfl, rfl, rfl, ?_⟩
    unfold outlierPointsSpec
    apply filterMap_ext
    intro r hr
    cases hg : r.get f with
    | none => rfl
    | some x =>
      simp only
      have hv := listVariance_nonneg (fieldValues (windowRecords rows w i) f)
      by_cases hc : outlierCheck x (listMean (fieldValues (windowRecords rows w i) f)) sigma
          (listVariance (fieldValues (windowRecords rows w i) f)) = true
      · rw [if_pos hc, if_pos ((outlierCheck_iff hv).mp hc)]
      · rw [if_neg (by simpa using hc), if_neg (fun hp => hc ((outlierCheck_iff hv).mpr hp))]

/-- Decomposition of membership in the outlier report. -/
lemma mem_outliers_decomp {rows : List Row} {fields : List String} {sigma w : ℚ}
    {e : OutlierEntry} (hne : rows ≠ [])
    (he : e ∈ (detect_outliers_with_dynamic_thresholds rows fields sigma w).outliers) :
    ∃ i f, i < numWindows rows w ∧ f ∈ fields ∧ outlierEntry rows sigma w i f = some e := by
  obtain ⟨x, xs, rfl⟩ : ∃ y ys, rows = y :: ys := by
    cases rows with
    | nil => exact absurd rfl hne
    | cons y ys => exact ⟨y, ys, rfl⟩
  simp only [detect_outliers_with_dynamic_thresholds, List.isEmpty_cons, if_false] at he
  obtain ⟨i, hi, he⟩ := List.mem_flatMap.mp he
  obtain ⟨f, hf, hfe⟩ := List.mem_filterMap.mp he
  exact ⟨i, f, List.mem_range.mp hi, hf, hfe⟩

/-- Python rounding of a rational-valued real agrees with the rational
rounding. -/
lemma pyRoundR_ratCast (q : ℚ) : pyRoundR ((q : ℝ)) = pyRound q := by
  unfold pyRoundR pyRound
  have hfl : ⌊(q : ℝ)⌋ = ⌊q⌋ := Rat.floor_cast q
  have hrd : round ((q : ℝ)) = round q := Rat.round_cast q
  have hcond : ((q : ℝ) - ⌊(q : ℝ)⌋ = 1/2) ↔ (q - ⌊q⌋ = 1/2) := by
    rw [hfl]
    constructor
    · intro hx
      have h2 : ((q - ⌊q⌋ : ℚ) : ℝ) = ((1/2 : ℚ) : ℝ) := by
        push_cast
        exact_mod_cast hx
      exact_mod_cast h2
    · intro hx
      have h2 : ((q - ⌊q⌋ : ℚ) : ℝ) = ((1/2 : ℚ) : ℝ) := by
        exact_mod_cast congrArg (fun z : ℚ => (z : ℝ)) hx
      push_cast at h2
      exact_mod_cast h2
  by_cases hc : q - ⌊q⌋ = 1/2
  · rw [if_pos (hcond.mpr hc), if_pos hc, hfl]
  · rw [if_neg (fun hx => hc (hcond.mp hx)), if_neg hc, hrd]

lemma roundToR_ratCast (nd : ℕ) (q : ℚ) :
    roundToR nd ((q : ℝ)) = ((roundTo nd q : ℚ) : ℝ) := by
  unfold roundToR roundTo
  have h1 : (q : ℝ) * 10 ^ nd = (((q * 10 ^ nd : ℚ)) : ℝ) := by
    push_cast
    ring
  rw [h1, pyRoundR_ratCast]
  push_cast
  ring

lemma sqrt_sixteen : Real.sqrt ((16 : ℚ) : ℝ) = ((4 : ℚ) : ℝ) := by
  have h : ((16 : ℚ) : ℝ) = (4 : ℝ) ^ 2 := by norm_num
  rw [h, Real.sqrt_sq (by norm_num)]
  norm_num

/-- Five records in one window whose field `v` has samples `[0,0,0,0,10]`. -/
def exRowsC7 : List Row :=
  [{ time_boot_ms := 0, vals := [("v", some 0)] },
   { time_boot_ms := 1000, vals := [("v", some 0)] },
   { time_boot_ms := 2000, vals := [("v", some 0)] },
   { time_boot_ms := 3000, vals := [("v", some 0)] },
   { time_boot_ms := 4000, vals := [("v", some 10)] }]

lemma minTime_exC7 : minTime exRowsC7 = 0 := by
  norm_num [minTime, exRowsC7, min_def]

lemma maxTime_exC7 : maxTime exRowsC7 = 4000 := by
  norm_num [maxTime, exRowsC7, max_def]

lemma numWindows_exC7 : numWindows exRowsC7 30000 = 1 := by
  norm_num [numWindows, durationMs, minTime_exC7, maxTime_exC7]

lemma windowStart_exC7 : windowStart exRowsC7 30000 0 = 0 := by
  norm_num [windowStart, minTime_exC7]

lemma windowEnd_exC7 : windowEnd exRowsC7 30000 0 = 30000 := by
  norm_num [windowEnd, windowStart_exC7]

lemma windowRecords_exC7 : windowRecords exRowsC7 30000 0 = exRowsC7 := by
  unfold windowRecords
  rw [windowStart_exC7, windowEnd_exC7]
  norm_num [exRowsC7, List.filter]

lemma fieldValues_exC7 :
    fieldValues (windowRecords exRowsC7 30000 0) "v" = [0, 0, 0, 0, 10] := by
  rw [windowRecords_exC7]
  norm_num [fieldValues, exRowsC7, Row.get, List.filterMap, List.find?]

lemma listMean_exC7 : listMean [0, 0, 0, 0, 10] = 2 := by
  norm_num [listMean]

lemma listVariance_exC7 : listVariance [0, 0, 0, 0, 10] = 16 := by
  norm_num [listVariance, listMean]

lemma outlierCheck_zero_sigma25 : outlierCheck 0 2 (5/2) 16 = false := by
  norm_num [outlierCheck, mulSqrtLt, ltMulSqrt]

lemma outlierCheck_ten_sigma25 : outlierCheck 10 2 (5/2) 16 = false := by
  norm_num [outlierCheck, mulSqrtLt, ltMulSqrt]

lemma outlierCheck_zero_sigma1 : outlierCheck 0 2 1 16 = false := by
  norm_num [outlierCheck, mulSqrtLt, ltMulSqrt]

lemma outlierCheck_ten_sigma1 : outlierCheck 10 2 1 16 = true := by
  norm_num [outlierCheck, mulSqrtLt, ltMulSqrt]

lemma deviationSigma_exC7 : deviationSigma 10 2 16 = ((2 : ℚ) : ℝ) := by
  unfold deviationSigma
  rw [sqrt_sixteen, if_pos (by norm_num)]
  push_cast
  rw [abs_of_nonneg (by norm_num : (0:ℝ) ≤ 10 - 2)]
  norm_num

lemma roundToR2_two : roundToR 2 (2 : ℝ) = 2 := by
  have h : ((2 : ℚ) : ℝ) = (2 : ℝ) := by norm_num
  rw [← h, roundToR_ratCast]
  norm_num [roundTo, pyRound, round_eq]

lemma roundToR3_sqrt16 : roundToR 3 (Real.sqrt ((16 : ℚ) : ℝ)) = ((4 : ℚ) : ℝ) := by
  rw [sqrt_sixteen, roundToR_ratCast]
  norm_num [roundTo, pyRound, round_eq]

lemma outlierEntry_exC7_sigma25 :
    outlierEntry exRowsC7 (5/2) 30000 0 "v" =
      some ⟨"v", 0, windowStart exRowsC7 30000 0, windowEnd exRowsC7 30000 0, 0, [],
        roundTo 3 2, roundToR 3 (Real.sqrt ((16 : ℚ) : ℝ)),
        roundToR 3 (((2 : ℚ) : ℝ) + ((5/2 : ℚ) : ℝ) * Real.sqrt ((16 : ℚ) : ℝ)),
        roundToR 3 (((2 : ℚ) : ℝ) - ((5/2 : ℚ) : ℝ) * Real.sqrt ((16 : ℚ) : ℝ))⟩ := by
  simp only [outlierEntry]
  rw [fieldValues_exC7, listMean_exC7, listVariance_exC7, if_neg (by norm_num)]
  rw [windowRecords_exC7]
  simp [exRowsC7, List.filterMap_cons, Row.get, List.find?,
    outlierCheck_zero_sigma25, outlierCheck_ten_sigma25]

lemma outlierEntry_exC7_sigma1 :
    outlierEntry exRowsC7 1 30000 0 "v" =
      some ⟨"v", 0, windowStart exRowsC7 30000 0, windowEnd exRowsC7 30000 0, 1,
        [⟨4000, 10, roundToR 2 (deviationSigma 10 2 16), roundTo 3 |10 - 2|⟩],
        roundTo 3 2, roundToR 3 (Real.sqrt ((16 : ℚ) : ℝ)),
        roundToR 3 (((2 : ℚ) : ℝ) + ((1 : ℚ) : ℝ) * Real.sqrt ((16 : ℚ) : ℝ)),
        roundToR 3 (((2 : ℚ) : ℝ) - ((1 : ℚ) : ℝ) * Real.sqrt ((16 : ℚ) : ℝ))⟩ := by
  simp only [outlierEntry]
  rw [fieldValues_exC7, listMean_exC7, listVariance_exC7, if_neg (by norm_num)]
  rw [windowRecords_exC7]
  simp [exRowsC7, List.filterMap_cons, Row.get, List.find?,
    outlierCheck_zero_sigma1, outlierCheck_ten_sigma1]

lemma roundTo_three_two : roundTo 3 2 = 2 := by
  norm_num [roundTo, pyRound, round_eq]

lemma detect_exC7 (sigma : ℚ) (e : OutlierEntry)
    (h : outlierEntry exRowsC7 sigma 30000 0 "v" = some e) :
    (detect_outliers_with_dynamic_thresholds exRowsC7 ["v"] sigma 30000).outliers = [e] ∧
    (detect_outliers_with_dynamic_thresholds exRowsC7 ["v"] sigma 30000).total_outliers
      = e.outlier_count := by
  simp only [detect_outliers_with_dynamic_thresholds]
  rw [if_neg (by decide)]
  rw [numWindows_exC7]
  rw [show List.range 1 = [0] from rfl]
  simp [List.filterMap_cons, h, Function.comp]

/-- Claim C7: windows/fields with fewer than 3 samples are skipped; each
reported entry's points are exactly the samples strictly outside the
`mean ± sigma*std` thresholds, annotated with raw value, sigma deviation
(0 when the deviation is taken against a zero std) and absolute deviation
magnitude; the total count is the sum of per-entry counts; and on samples
`[0,0,0,0,10]` a 2.5-sigma threshold flags nothing while a 1-sigma
threshold flags the value 10 with deviation 2 sigma (mean 2, std 4). -/
theorem C7_outliers (rows : List Row) (fields : List String) (sigma w : ℚ)
    (hne : rows ≠ []) :
    ((detect_outliers_with_dynamic_thresholds rows fields sigma w).total_outliers
      = ((detect_outliers_with_dynamic_thresholds rows fields sigma w).outliers.map
          (·.outlier_count)).sum) ∧
    (∀ e ∈ (detect_outliers_with_dynamic_thresholds rows fields sigma w).outliers,
      e.window_index < numWindows rows w ∧ e.field ∈ fields ∧
      3 ≤ (fieldValues (windowRecords rows w e.window_index) e.field).length ∧
      e.outlier_count = e.outlier_points.length ∧
      e.outlier_points = outlierPointsSpec rows sigma w e.window_index e.field) ∧
    (∀ i : ℕ, ∀ f ∈ fields, (fieldValues (windowRecords rows w i) f).length < 3 →
      ∀ e ∈ (detect_outliers_with_dynamic_thresholds rows fields sigma w).outliers,
        ¬(e.window_index = i ∧ e.field = f)) ∧
    (∀ x m v : ℚ, (v = 0 → deviationSigma x m v = 0) ∧
      (0 < v → deviationSigma x m v = |(x : ℝ) - (m : ℝ)| / Real.sqrt (v : ℝ))) ∧
    ((detect_outliers_with_dynamic_thresholds exRowsC7 ["v"] (5/2) 30000).total_outliers = 0 ∧
      (detect_outliers_with_dynamic_thresholds exRowsC7 ["v"] 1 30000).total_outliers = 1 ∧
      ∃ e, (detect_outliers_with_dynamic_thresholds exRowsC7 ["v"] 1 30000).outliers = [e] ∧
        e.baseline_mean = 2 ∧ e.baseline_std = ((4 : ℚ) : ℝ) ∧
        e.outlier_points.map (fun p => (p.value, p.deviation_sigma))
          = [((10 : ℚ), ((2 : ℚ) : ℝ))]) := by
  refine ⟨?_, ?_, ?_, ?_, ?_, ?_, ?_⟩
  · obtain ⟨x, xs, rfl⟩ : ∃ y ys, rows = y :: ys := by
      cases rows with
      | nil => exact absurd rfl hne
      | cons y ys => exact ⟨y, ys, rfl⟩
    simp [detect_outliers_with_dynamic_thresholds]
  · intro e he
    obtain ⟨i, f, hi, hf, hfe⟩ := mem_outliers_decomp hne he
    obtain ⟨hlen, hwi, hfld, hcnt, hpts⟩ := outlierEntry_some hfe
    rw [hwi, hfld]
    exact ⟨hi, hf, hlen, hcnt, hpts⟩
  · intro i f hf hlen e he ⟨hei, hef⟩
    obtain ⟨i', f', hi', hf', hfe⟩ := mem_outliers_decomp hne he
    obtain ⟨hlen', hwi, hfld, -, -⟩ := outlierEntry_some hfe
    rw [hwi] at hei
    rw [hfld] at hef
    subst hei
    subst hef
    omega
  · intro x m v
    constructor
    · intro hv
      subst hv
      simp [deviationSigma]
    · intro hv
      have hpos : 0 < Real.sqrt (v : ℝ) := Real.sqrt_pos.mpr (by exact_mod_cast hv)
      unfold deviationSigma
      rw [if_pos hpos]
  · exact ((detect_exC7 (5/2) _ outlierEntry_exC7_sigma25).2).trans rfl
  · exact ((detect_exC7 1 _ outlierEntry_exC7_sigma1).2).trans rfl
  · refine ⟨_, (detect_exC7 1 _ outlierEntry_exC7_sigma1).1, ?_, ?_, ?_⟩
    · exact roundTo_three_two
    · exact roundToR3_sqrt16
    · simp [deviationSigma_exC7, roundToR2_two]

/-- Witness for C7 at the concrete example. -/
theorem C7_outliers_witness :
    (detect_outliers_with_dynamic_thresholds exRowsC7 ["v"] (5/2) 30000).total_outliers = 0 ∧
    (detect_outliers_with_dynamic_thresholds exRowsC7 ["v"] 1 30000).total_outliers = 1 := by
  have h := C7_outliers exRowsC7 ["v"] (5/2) 30000 (by decide)
  exact ⟨h.2.2.2.2.1, h.2.2.2.2.2.1⟩

/-! ## Claim C8 — causal correlation -/

section SortLemmas

variable {α : Type}

/-- The total lexicographic (key, original index) order used by the stable
sort embedding. -/
def keyLe (key : α → ℚ × ℕ) (a b : α) : Prop :=
  (key a).1 < (key b).1 ∨ ((key a).1 = (key b).1 ∧ (key a).2 ≤ (key b).2)

lemma keyLe_total (key : α → ℚ × ℕ) (a b : α) : keyLe key a b ∨ keyLe key b a := by
  unfold keyLe
  rcases lt_trichotomy (key a).1 (key b).1 with h | h | h
  · exact Or.inl (Or.inl h)
  · rcases le_total (key a).2 (key b).2 with h2 | h2
    · exact Or.inl (Or.inr ⟨h, h2⟩)
    · exact Or.inr (Or.inr ⟨h.symm, h2⟩)
  · exact Or.inr (Or.inl h)

lemma keyLe_trans (key : α → ℚ × ℕ) {a b c : α} (h1 : keyLe key a b)
    (h2 : keyLe key b c) : keyLe key a c := by
  unfold keyLe at h1 h2 ⊢
  rcases h1 with h1 | ⟨h1, h1'⟩ <;> rcases h2 with h2 | ⟨h2, h2'⟩
  · exact Or.inl (lt_trans h1 h2)
  · exact Or.inl (h2 ▸ h1)
  · exact Or.inl (h1 ▸ h2)
  · exact Or.inr ⟨h1.trans h2, h1'.trans h2'⟩

lemma insertByKey_perm (key : α → ℚ × ℕ) (x : α) :
    ∀ l : List α, (insertByKey key x l).Perm (x :: l)
  | [] => List.Perm.refl _
  | y :: ys => by
    unfold insertByKey
    split
    · exact List.Perm.refl _
    · exact ((insertByKey_perm key x ys).cons y).trans (List.Perm.swap x y ys)

lemma sortByKey_perm (key : α → ℚ × ℕ) :
    ∀ l : List α, (sortByKey key l).Perm l
  | [] => List.Perm.refl _
  | x :: xs => by
    unfold sortByKey
    exact (insertByKey_perm key x (sortByKey key xs)).trans ((sortByKey_perm key xs).cons x)

lemma insertByKey_sorted (key : α → ℚ × ℕ) (x : α) :
    ∀ {l : List α}, l.Pairwise (keyLe key) → (insertByKey key x l).Pairwise (keyLe key)
  | [], _ => List.pairwise_singleton _ _
  | y :: ys, h => by
    obtain ⟨hy, hys⟩ := List.pairwise_cons.mp h
    unfold insertByKey
    split
    case isTrue hc =>
      refine List.pairwise_cons.mpr ⟨?_, h⟩
      intro z hz
      rcases List.mem_cons.mp hz with rfl | hz
      · exact hc
      · exact keyLe_trans key hc (hy z hz)
    case isFalse hc =>
      refine List.pairwise_cons.mpr ⟨?_, insertByKey_sorted key x hys⟩
      intro z hz
      have hz' := (insertByKey_perm key x ys).mem_iff.mp hz
      rcases List.mem_cons.mp hz' with rfl | hz'
      · rcases keyLe_total key z y with h1 | h1
        · exact absurd h1 hc
        · exact h1
      · exact hy z hz'

lemma sortByKey_sorted (key : α → ℚ × ℕ) :
    ∀ l : List α, (sortByKey key l).Pairwise (keyLe key)
  | [] => List.Pairwise.nil
  | x :: xs => by
    unfold sortByKey
    exact insertByKey_sorted key x (sortByKey_sorted key xs)

/-- A Python stable sort by key is a permutation of its input. -/
lemma pySortBy_perm (k : α → ℚ) (l : List α) : (pySortBy k l).Perm l := by
  unfold pySortBy
  have h1 := (sortByKey_perm (fun p : ℕ × α => (k p.2, p.1)) l.enum).map (·.2)
  have h2 : l.enum.map (·.2) = l := List.enum_map_snd l
  rw [h2] at h1
  exact h1

/-- A Python stable sort by key is ascending in the key. -/
lemma pySortBy_sorted (k : α → ℚ) (l : List α) :
    (pySortBy k l).Pairwise (fun a b => k a ≤ k b) := by
  unfold pySortBy
  have h := sortByKey_sorted (fun p : ℕ × α => (k p.2, p.1)) l.enum
  refine List.pairwise_map.mpr (h.imp ?_)
  intro a b hab
  rcases hab with hab | ⟨hab, -⟩
  · exact le_of_lt hab
  · exact le_of_eq hab

end SortLemmas

/-- Claim C8 as stated: for a known session, the trace succeeds, **every**
session event with timestamp within the window appears among the returned
events, the returned list ascends by absolute distance to the target, and
proximity ranks are 1-based positions. -/
def claimC8Statement : Prop :=
  ∀ (store : SessionStore) (sid : String) (s : SessionBundle), alookup store sid = some s →
    ∀ (target window : ℚ),
      (trace_causal_chains_impl store sid target window).ok = true ∧
      (∀ e ∈ s.events, target - window ≤ eventTime e → eventTime e ≤ target + window →
        ∃ c ∈ (trace_causal_chains_impl store sid target window).nearby_events,
          c.timestamp_ms = eventTime e ∧ c.time_delta_ms = eventTime e - target) ∧
      (trace_causal_chains_impl store sid target window).nearby_events.Pairwise
        (fun a b => |a.time_delta_ms| ≤ |b.time_delta_ms|) ∧
      (trace_causal_chains_impl store sid target window).nearby_events.map (·.proximity_rank)
        = (List.range (trace_causal_chains_impl store sid target window).nearby_events.length).map
            (· + 1)

/-- A session holding a single event inside the window but with empty text. -/
def cexStoreC8 : SessionStore :=
  [("s", { events := [{ t := some 10000 }] })]

/-- Counterexample to C8: an event with empty text at the target timestamp
itself is not selected (the source filters on truthy `text`), so not every
in-window session event appears in the result. -/
theorem claim_C8_cex : ¬ claimC8Statement := by
  intro h
  obtain ⟨-, h2, -, -⟩ := h cexStoreC8 "s" _ rfl 10000 5000
  obtain ⟨c, hc, -⟩ := h2 ⟨some 10000, "", none⟩ (List.mem_singleton.mpr rfl)
    (by norm_num [eventTime]) (by norm_num [eventTime])
  have hempty : (trace_causal_chains_impl cexStoreC8 "s" 10000 5000).nearby_events = [] := rfl
  rw [hempty] at hc
  cases hc

/-- Rank-erasure helper for relating the ranked output to the unranked
annotated selection. -/
def stripRank (c : CausalEvent) : CausalEvent := { c with proximity_rank := 0 }

/-- The events of the worked example: texts `a`..`d` at 4000, 9000, 9900
and 16000 ms. -/
def exEventsC8 : List SEvent :=
  [{ t := some 4000, text := "a" }, { t := some 9000, text := "b" },
   { t := some 9900, text := "c" }, { t := some 16000, text := "d" }]

lemma causalEvents_exC8 :
    causalEvents exEventsC8 10000 5000 =
      [⟨9900, "c", 0, -100, -1/10, "before", 1⟩, ⟨9000, "b", 0, -1000, -1, "before", 2⟩] := by
  have hfilter : exEventsC8.filter (fun e =>
      e.text != "" && decide ((10000 : ℚ) - 5000 ≤ eventTime e) &&
        decide (eventTime e ≤ (10000 : ℚ) + 5000)) =
      [⟨some 9000, "b", none⟩, ⟨some 9900, "c", none⟩] := by
    norm_num [exEventsC8, List.filter, eventTime]
    rfl
  unfold causalEvents
  rw [hfilter]
  norm_num [annotateEvent, eventTime, pySortBy, List.enum, List.enumFrom, sortByKey,
    insertByKey, roundTo, pyRound, round_eq]

/-- Claim C8, amended: for a known session the trace succeeds and returns,
for every session event **with non-empty text** whose timestamp lies within
the window, an annotated entry (timestamp, signed delta in ms and rounded
seconds, direction `before` iff delta is negative); the entries ascend by
absolute distance to the target (ties broken by original event order, which
the sort key encodes) and carry 1-based proximity ranks; an unknown session
yields a not-ok result; on the worked example only the events at 9900 and
9000 are returned, in that order, with deltas −100 and −1000. -/
theorem C8_trace (store : SessionStore) (sid : String) (s : SessionBundle)
    (hstore : alookup store sid = some s) (target window : ℚ) :
    ((trace_causal_chains_impl store sid target window).ok = true ∧
      (trace_causal_chains_impl store sid target window).nearby_events
        = causalEvents s.events target window ∧
      (trace_causal_chains_impl store sid target window).events_found
        = (causalEvents s.events target window).length) ∧
    (∀ sid', alookup store sid' = none →
      (trace_causal_chains_impl store sid' target window).ok = false) ∧
    ((causalEvents s.events target window).map stripRank).Perm
      ((s.events.filter (fun e =>
        e.text != "" && decide (target - window ≤ eventTime e) &&
          decide (eventTime e ≤ target + window))).map (annotateEvent target)) ∧
    (causalEvents s.events target window).Pairwise
      (fun a b => |a.time_delta_ms| ≤ |b.time_delta_ms|) ∧
    ((causalEvents s.events target window).map (·.proximity_rank)
      = (List.range (causalEvents s.events target window).length).map (· + 1)) ∧
    (∀ c ∈ causalEvents s.events target window, ∃ e ∈ s.events,
      e.text ≠ "" ∧ target - window ≤ eventTime e ∧ eventTime e ≤ target + window ∧
      c.timestamp_ms = eventTime e ∧ c.text = e.text ∧
      c.time_delta_ms = eventTime e - target ∧
      c.time_delta_seconds = roundTo 1 ((eventTime e - target) / 1000) ∧
      c.direction = if eventTime e - target < 0 then "before" else "after") ∧
    (causalEvents exEventsC8 10000 5000 =
      [⟨9900, "c", 0, -100, -1/10, "before", 1⟩, ⟨9000, "b", 0, -1000, -1, "before", 2⟩]) := by
  refine ⟨?_, ?_, ?_, ?_, ?_, ?_, causalEvents_exC8⟩
  · refine ⟨?_, ?_, ?_⟩ <;> simp [trace_causal_chains_impl, hstore]
  · intro sid' h
    simp [trace_causal_chains_impl, h]
  · unfold causalEvents
    simp only
    have h1 : ∀ (l : List CausalEvent),
        ((l.enum.map (fun p => { p.2 with proximity_rank := p.1 + 1 })).map stripRank)
          = l.map stripRank := by
      intro l
      rw [List.map_map]
      have h2 : ((fun p : ℕ × CausalEvent => stripRank { p.2 with proximity_rank := p.1 + 1 }))
          = (fun p : ℕ × CausalEvent => stripRank p.2) := by
        funext p
        rfl
      rw [show (stripRank ∘ fun p : ℕ × CausalEvent => { p.2 with proximity_rank := p.1 + 1 })
          = (fun p : ℕ × CausalEvent => stripRank p.2) from h2]
      rw [show (fun p : ℕ × CausalEvent => stripRank p.2)
          = (stripRank ∘ (fun p : ℕ × CausalEvent => p.2)) from rfl]
      rw [← List.map_map]
      rw [List.enum_map_snd]
    rw [h1]
    have hperm := (pySortBy_perm (fun c => |c.time_delta_ms|)
      ((s.events.filter (fun e =>
        e.text != "" && decide (target - window ≤ eventTime e) &&
          decide (eventTime e ≤ target + window))).map (annotateEvent target))).map stripRank
    refine hperm.trans ?_
    rw [List.map_map]
    have h3 : (stripRank ∘ annotateEvent target) = annotateEvent target := by
      funext e
      rfl
    rw [h3]
  · unfold causalEvents
    simp only
    have hs := pySortBy_sorted (fun c => |c.time_delta_ms|)
      ((s.events.filter (fun e =>
        e.text != "" && decide (target - window ≤ eventTime e) &&
          decide (eventTime e ≤ target + window))).map (annotateEvent target))
    set sorted := pySortBy (fun c => |c.time_delta_ms|)
      ((s.events.filter (fun e =>
        e.text != "" && decide (target - window ≤ eventTime e) &&
          decide (eventTime e ≤ target + window))).map (annotateEvent target)) with hsrt
    have h4 : sorted = sorted.enum.map (·.2) := (List.enum_map_snd sorted).symm
    rw [h4] at hs
    have h5 := List.pairwise_map.mp hs
    exact List.pairwise_map.mpr (h5.imp (fun hab => hab))
  · unfold causalEvents
    simp only
    rw [List.map_map, List.length_map]
    have h6 : ((fun c : CausalEvent => c.proximity_rank) ∘
        (fun p : ℕ × CausalEvent => { p.2 with proximity_rank := p.1 + 1 }))
        = (fun p : ℕ × CausalEvent => p.1 + 1) := by
      funext p
      rfl
    rw [h6]
    rw [show (fun p : ℕ × CausalEvent => p.1 + 1)
        = ((· + 1) ∘ (fun p : ℕ × CausalEvent => p.1)) from rfl]
    rw [← List.map_map, List.enum_map_fst, List.enum_length]
  · intro c hc
    unfold causalEvents at hc
    simp only at hc
    obtain ⟨p, hp, rfl⟩ := List.mem_map.mp hc
    have hp2 : p.2 ∈ pySortBy (fun c => |c.time_delta_ms|)
        ((s.events.filter (fun e =>
          e.text != "" && decide (target - window ≤ eventTime e) &&
            decide (eventTime e ≤ target + window))).map (annotateEvent target)) := by
      have h7 : p.2 ∈ (pySortBy (fun c => |c.time_delta_ms|)
          ((s.events.filter (fun e =>
            e.text != "" && decide (target - window ≤ eventTime e) &&
              decide (eventTime e ≤ target + window))).map
                (annotateEvent target))).enum.map (fun q : ℕ × CausalEvent => q.2) :=
        List.mem_map.mpr ⟨p, hp, rfl⟩
      rw [List.enum_map_snd] at h7
      exact h7
    have hp3 := (pySortBy_perm _ _).mem_iff.mp hp2
    obtain ⟨e, he, hae⟩ := List.mem_map.mp hp3
    obtain ⟨hee, hcond⟩ := List.mem_filter.mp he
    simp only [Bool.and_eq_true, bne_iff_ne, ne_eq, decide_eq_true_eq] at hcond
    refine ⟨e, hee, hcond.1.1, hcond.1.2, hcond.2, ?_, ?_, ?_, ?_, ?_⟩ <;>
      rw [← hae] <;> rfl

/-- Witness for the amended C8 at the worked example. -/
theorem C8_trace_witness :
    (trace_causal_chains_impl [("s", { events := exEventsC8 })] "s" 10000 5000).ok = true ∧
    (trace_causal_chains_impl [("s", { events := exEventsC8 })] "s" 10000 5000).nearby_events
      = [⟨9900, "c", 0, -100, -1/10, "before", 1⟩, ⟨9000, "b", 0, -1000, -1, "before", 2⟩] := by
  have h := C8_trace [("s", { events := exEventsC8 })] "s" { events := exEventsC8 } rfl
    10000 5000
  exact ⟨h.1.1, h.1.2.1.trans h.2.2.2.2.2.2⟩

/-! ## Claim C10 — max-altitude tie-breaking -/

section MaxByLemmas

variable {α : Type}

lemma foldl_maxBy_spec (k : α → ℚ) :
    ∀ (xs : List α) (x : α),
      (xs.foldl (fun m y => if k y > k m then y else m) x) ∈ x :: xs ∧
      k x ≤ k (xs.foldl (fun m y => if k y > k m then y else m) x) ∧
      ∀ y ∈ xs, k y ≤ k (xs.foldl (fun m y => if k y > k m then y else m) x)
  | [], x => ⟨List.mem_singleton.mpr rfl, le_refl _, by intro y hy; cases hy⟩
  | y :: ys, x => by
    simp only [List.foldl_cons]
    obtain ⟨hmem, hle, hall⟩ := foldl_maxBy_spec k ys (if k y > k x then y else x)
    have hx : k x ≤ k (if k y > k x then y else x) := by
      split
      case isTrue h => exact le_of_lt h
      case isFalse h => exact le_refl _
    have hy : k y ≤ k (if k y > k x then y else x) := by
      split
      case isTrue h => exact le_refl _
      case isFalse h => exact le_of_not_lt h
    refine ⟨?_, hx.trans hle, ?_⟩
    · rcases List.mem_cons.mp hmem with h | h
      · rw [h]
        split
        case isTrue => exact List.mem_cons.mpr (Or.inr (List.mem_cons_self _ _))
        case isFalse => exact List.mem_cons_self _ _
      · exact List.mem_cons.mpr (Or.inr (List.mem_cons.mpr (Or.inr h)))
    · intro z hz
      rcases List.mem_cons.mp hz with rfl | hz
      · exact hy.trans hle
      · exact hall z hz

/-- Python `max(l, key=k)` returns an element of `l` attaining the maximal
key. -/
lemma pyMaxBy_spec {k : α → ℚ} {l : List α} {m : α} (h : pyMaxBy k l = some m) :
    m ∈ l ∧ ∀ x ∈ l, k x ≤ k m := by
  cases l with
  | nil => cases h
  | cons x xs =>
    obtain rfl := Option.some.inj h
    obtain ⟨hmem, hle, hall⟩ := foldl_maxBy_spec k xs x
    refine ⟨hmem, ?_⟩
    intro z hz
    rcases List.mem_cons.mp hz with rfl | hz
    · exact hle
    · exact hall z hz

lemma pyListMax_mem {l : List ℚ} {m : ℚ} (h : pyListMax l = some m) : m ∈ l := by
  cases l with
  | nil => cases h
  | cons x xs =>
    obtain rfl := Option.some.inj h
    clear h
    induction xs generalizing x with
    | nil => exact List.mem_singleton.mpr rfl
    | cons y ys ih =>
      simp only [List.foldl_cons]
      have h2 := ih (max x y)
      rcases List.mem_cons.mp h2 with h3 | h3
      · rw [h3]
        rcases max_choice x y with h4 | h4 <;> rw [h4]
        · exact List.mem_cons_self _ _
        · exact List.mem_cons.mpr (Or.inr (List.mem_cons_self _ _))
      · exact List.mem_cons.mpr (Or.inr (List.mem_cons.mpr (Or.inr h3)))

end MaxByLemmas

/-- If the altitude maximum exists, the tie list is nonempty and
`max(..., key=t)` picks a tying sample of maximal timestamp. -/
lemma tie_pick {alt_data : List Item} {m : ℚ} (get1 : Item → Option ℚ)
    (hmax : pyListMax (alt_data.filterMap get1) = some m) :
    ∃ it, pyMaxBy (fun it => it.t.getD 0) (alt_data.filter (fun it => get1 it == some m))
        = some it ∧
      it ∈ alt_data.filter (fun it => get1 it == some m) ∧
      ∀ x ∈ alt_data.filter (fun x => get1 x == some m), x.t.getD 0 ≤ it.t.getD 0 := by
  have hmem : m ∈ alt_data.filterMap get1 := pyListMax_mem hmax
  obtain ⟨it0, hit0, hg⟩ := List.mem_filterMap.mp hmem
  have hne : alt_data.filter (fun it => get1 it == some m) ≠ [] := by
    intro hnil
    have : it0 ∈ alt_data.filter (fun it => get1 it == some m) :=
      List.mem_filter.mpr ⟨hit0, by rw [hg]; simp⟩
    rw [hnil] at this
    cases this
  obtain ⟨a, as, has⟩ : ∃ a as, alt_data.filter (fun it => get1 it == some m) = a :: as := by
    cases hl : alt_data.filter (fun it => get1 it == some m) with
    | nil => exact absurd hl hne
    | cons a as => exact ⟨a, as, rfl⟩
  have hsome : ∃ it, pyMaxBy (fun it : Item => it.t.getD 0)
      (alt_data.filter (fun it => get1 it == some m)) = some it := by
    rw [has]
    exact ⟨_, rfl⟩
  obtain ⟨it, hit⟩ := hsome
  have h := pyMaxBy_spec hit
  exact ⟨it, hit, h.1, h.2⟩

/-- Claim C10: when several samples attain the maximum altitude, the
reported `t_ms` is the timestamp of a tying sample whose timestamp (read
with the source's `get("t", 0)` default) is maximal — the latest
occurrence, not the first — in both the primary `alt` path and the `gpos`
fallback path. -/
theorem C10_max_altitude_tie (s : SessionBundle) (m : ℚ) :
    ((((alookup s.downsample1Hz "alt").getD []).isEmpty = false) →
      pyListMax (((alookup s.downsample1Hz "alt").getD []).filterMap (·.altM)) = some m →
      (metrics_compute_max_altitude s).ok = true ∧
      (metrics_compute_max_altitude s).value = some (roundTo 1 m) ∧
      ∃ it ∈ ((alookup s.downsample1Hz "alt").getD []).filter (fun it => it.altM == some m),
        (metrics_compute_max_altitude s).t_ms = it.t ∧
        ∀ x ∈ ((alookup s.downsample1Hz "alt").getD []).filter (fun x => x.altM == some m),
          x.t.getD 0 ≤ it.t.getD 0) ∧
    (((((alookup s.downsample1Hz "alt").getD []).isEmpty = true) ∨
        pyListMax (((alookup s.downsample1Hz "alt").getD []).filterMap (·.altM)) = none) →
      (((alookup s.downsample1Hz "gpos").getD []).isEmpty = false) →
      pyListMax (((alookup s.downsample1Hz "gpos").getD []).filterMap (·.relAltM)) = some m →
      (metrics_compute_max_altitude s).ok = true ∧
      (metrics_compute_max_altitude s).value = some (roundTo 1 m) ∧
      ∃ it ∈ ((alookup s.downsample1Hz "gpos").getD []).filter
          (fun it => it.relAltM == some m),
        (metrics_compute_max_altitude s).t_ms = it.t ∧
        ∀ x ∈ ((alookup s.downsample1Hz "gpos").getD []).filter
            (fun x => x.relAltM == some m),
          x.t.getD 0 ≤ it.t.getD 0) := by
  constructor
  · intro hne hmax
    obtain ⟨it, hit, hmem, hall⟩ := tie_pick (·.altM) hmax
    have hres : metrics_compute_max_altitude s =
        { name := "max_altitude", ok := true, value := some (roundTo 1 m),
          units := "m", t_ms := it.t, method := "VFR_HUD.alt",
          source := "downsample1Hz.alt" } := by
      simp [metrics_compute_max_altitude, hne, hmax, hit]
    rw [hres]
    exact ⟨rfl, rfl, it, hmem, rfl, hall⟩
  · intro halt hne hmax
    obtain ⟨it, hit, hmem, hall⟩ := tie_pick (·.relAltM) hmax
    have hres : metrics_compute_max_altitude s =
        { name := "max_altitude", ok := true, value := some (roundTo 1 m),
          units := "m", t_ms := it.t, method := "GLOBAL_POSITION_INT.relative_alt",
          source := "downsample1Hz.gpos", notes := "fallback" } := by
      rcases halt with h | h
      · simp [metrics_compute_max_altitude, h, hne, hmax, hit]
      · simp [metrics_compute_max_altitude, h, hne, hmax, hit]
    rw [hres]
    exact ⟨rfl, rfl, it, hmem, rfl, hall⟩

/-- Session with two samples tying at the maximum altitude 5, at 1000 ms
and 2000 ms. -/
def exSessC10 : SessionBundle :=
  { downsample1Hz := [("alt", [{ t := some 1000, altM := some 5 },
      { t := some 2000, altM := some 5 }])] }

/-- Session exercising the `gpos` fallback with a tie at 7. -/
def exSessC10b : SessionBundle :=
  { downsample1Hz := [("gpos", [{ t := some 100, relAltM := some 7 },
      { t := some 300, relAltM := some 7 }, { t := some 200, relAltM := some 7 }])] }

/-- Witness for C10: both the primary path and the fallback path at
concrete tying sessions. -/
theorem C10_max_altitude_tie_witness :
    ((metrics_compute_max_altitude exSessC10).ok = true ∧
      (metrics_compute_max_altitude exSessC10).value = some (roundTo 1 5) ∧
      ∃ it ∈ ((alookup exSessC10.downsample1Hz "alt").getD []).filter
          (fun it => it.altM == some 5),
        (metrics_compute_max_altitude exSessC10).t_ms = it.t ∧
        ∀ x ∈ ((alookup exSessC10.downsample1Hz "alt").getD []).filter
            (fun x => x.altM == some 5),
          x.t.getD 0 ≤ it.t.getD 0) ∧
    ((metrics_compute_max_altitude exSessC10b).ok = true ∧
      (metrics_compute_max_altitude exSessC10b).value = some (roundTo 1 7) ∧
      ∃ it ∈ ((alookup exSessC10b.downsample1Hz "gpos").getD []).filter
          (fun it => it.relAltM == some 7),
        (metrics_compute_max_altitude exSessC10b).t_ms = it.t ∧
        ∀ x ∈ ((alookup exSessC10b.downsample1Hz "gpos").getD []).filter
            (fun x => x.relAltM == some 7),
          x.t.getD 0 ≤ it.t.getD 0) := by
  constructor
  · exact (C10_max_altitude_tie exSessC10 5).1 rfl (by norm_num [exSessC10, alookup,
      List.find?, pyListMax, List.filterMap, max_def])
  · exact (C10_max_altitude_tie exSessC10b 7).2 (Or.inl rfl) rfl
      (by norm_num [exSessC10b, alookup, List.find?, pyListMax, List.filterMap, max_def])

/-! ## Claim C9 — totality of the metric library -/

lemma metric_shape_max_altitude (s : SessionBundle) :
    (metrics_compute_max_altitude s).ok = true ∨
      (metrics_compute_max_altitude s).value = none := by
  simp only [metrics_compute_max_altitude]
  split
  next r hr =>
    split at hr
    · cases hr
    · split at hr
      · cases hr
      · split at hr
        · cases hr
        · obtain rfl := Option.some.inj hr
          exact Or.inl rfl
  next hr =>
    split
    next r hr2 =>
      split at hr2
      · cases hr2
      · split at hr2
        · cases hr2
        · split at hr2
          · cases hr2
          · obtain rfl := Option.some.inj hr2
            exact Or.inl rfl
    next hr2 => exact Or.inr rfl

lemma metric_shape_flight_time (s : SessionBundle) :
    (metrics_compute_flight_time s).ok = true ∨
      (metrics_compute_flight_time s).value = none := by
  unfold metrics_compute_flight_time
  split
  · split
    · exact Or.inl rfl
    · exact Or.inr rfl
  · exact Or.inr rfl

lemma metric_shape_first_gps_loss (s : SessionBundle) :
    (metrics_compute_first_gps_loss s).ok = true ∨
      (metrics_compute_first_gps_loss s).value = none := by
  simp only [metrics_compute_first_gps_loss]
  split
  · exact Or.inr rfl
  · split
    · exact Or.inl rfl
    · exact Or.inl rfl

lemma metric_shape_max_battery_temp (s : SessionBundle) :
    (metrics_compute_max_battery_temp s).ok = true ∨
      (metrics_compute_max_battery_temp s).value = none := by
  simp only [metrics_compute_max_battery_temp]
  split
  · exact Or.inl rfl
  · split
    · exact Or.inr rfl
    · exact Or.inr rfl

lemma metric_shape_first_rc_loss (s : SessionBundle) :
    (metrics_compute_first_rc_loss s).ok = true ∨
      (metrics_compute_first_rc_loss s).value = none := by
  simp only [metrics_compute_first_rc_loss]
  split
  · exact Or.inl rfl
  · split
    · exact Or.inr rfl
    · split
      · exact Or.inr rfl
      · exact Or.inl rfl

lemma metric_shape_missing_segments (s : SessionBundle) :
    (metrics_compute_missing_segments s).ok = true ∨
      (metrics_compute_missing_segments s).value = none := by
  simp only [metrics_compute_missing_segments]
  split
  · exact Or.inl rfl
  · split
    · exact Or.inl rfl
    · exact Or.inl rfl

/-- Claim C9: `metrics_compute` is a total function of the store, session
id and metric name (the embedding is a Lean function, mirroring the
source's catch-all exception handling), and every result with `ok = false`
— unknown session and unknown metric included — carries a null value. -/
theorem C9_metrics_total (store : SessionStore) (sid metric : String) :
    (metrics_compute store sid metric).ok = false →
      (metrics_compute store sid metric).value = none := by
  intro h
  unfold metrics_compute at h ⊢
  cases halk : alookup store sid with
  | none => rfl
  | some s =>
    rw [halk] at h
    simp only at h ⊢
    by_cases h1 : metric == "max_altitude"
    · rw [if_pos h1] at h ⊢
      rcases metric_shape_max_altitude s with h2 | h2
      · rw [h2] at h
        cases h
      · exact h2
    · rw [if_neg h1] at h ⊢
      by_cases h2 : metric == "flight_time"
      · rw [if_pos h2] at h ⊢
        rcases metric_shape_flight_time s with h3 | h3
        · rw [h3] at h
          cases h
        · exact h3
      · rw [if_neg h2] at h ⊢
        by_cases h3 : metric == "first_gps_loss"
        · rw [if_pos h3] at h ⊢
          rcases metric_shape_first_gps_loss s with h4 | h4
          · rw [h4] at h
            cases h
          · exact h4
        · rw [if_neg h3] at h ⊢
          by_cases h4 : metric == "first_rc_loss"
          · rw [if_pos h4] at h ⊢
            rcases metric_shape_first_rc_loss s with h5 | h5
            · rw [h5] at h
              cases h
            · exact h5
          · rw [if_neg h4] at h ⊢
            by_cases h5 : metric == "max_battery_temp"
            · rw [if_pos h5] at h ⊢
              rcases metric_shape_max_battery_temp s with h6 | h6
              · rw [h6] at h
                cases h
              · exact h6
            · rw [if_neg h5] at h ⊢
              by_cases h6 : metric == "critical_errors"
              · rw [if_pos h6] at h
                cases h
              · rw [if_neg h6] at h ⊢
                by_cases h7 : metric == "available_streams"
                · rw [if_pos h7] at h
                  cases h
                · rw [if_neg h7] at h ⊢
                  by_cases h8 : metric == "missing_segments"
                  · rw [if_pos h8] at h ⊢
                    rcases metric_shape_missing_segments s with h9 | h9
                    · rw [h9] at h
                      cases h
                    · exact h9
                  · rw [if_neg h8]

/-! ## Claim C5 — WaitingStatus iff an unresolved call remains -/

/-- The resumption loop only ever produces a final reply or a renewed
bridge request — never a waiting or not-found outcome. -/
lemma replyLoop_outcome (oracle : ℕ → CompletionResp) (exec : ToolCall → String)
    (si : ℕ) (fb : String) :
    ∀ (fuel : ℕ) (msgs : List Msg) (iter : ℕ) (pcs : List (String × PendingCall)) (ncalls : ℕ),
      (∃ t, (replyLoop oracle exec si fb fuel msgs iter pcs ncalls).outcome = .reply t) ∨
      (replyLoop oracle exec si fb fuel msgs iter pcs ncalls).outcome = .bridgeRequest := by
  intro fuel
  induction fuel with
  | zero =>
    intro msgs iter pcs ncalls
    exact Or.inl ⟨_, rfl⟩
  | succ n ih =>
    intro msgs iter pcs ncalls
    simp only [replyLoop]
    split
    · split
      · exact Or.inl ⟨_, rfl⟩
      · split
        · exact ih _ _ _ _
        · exact Or.inr rfl
    · exact Or.inl ⟨_, rfl⟩

/-- Claim C5: with an existing pending conversation (and, for resolveOne, a
known callId), the resumption endpoints return WaitingStatus exactly when,
after storing the supplied results, at least one pending call still lacks a
result; a waiting return leaves the transcript untouched (and carries the
unresolved count). -/
theorem C5_waiting_iff (oracle : ℕ → CompletionResp) (exec : ToolCall → String)
    (conv : Conversation) :
    (∀ results : List (String × String),
      ((∃ k, (resolveBatch oracle exec (some conv) results).outcome = .waiting k) ↔
        unresolvedCalls (storeResults conv.pendingCalls results) ≠ []) ∧
      (∀ k, (resolveBatch oracle exec (some conv) results).outcome = .waiting k →
        (resolveBatch oracle exec (some conv) results).msgs = conv.messages ∧
        (resolveBatch oracle exec (some conv) results).pend
          = some { conv with pendingCalls := storeResults conv.pendingCalls results } ∧
        k = (unresolvedCalls (storeResults conv.pendingCalls results)).length)) ∧
    (∀ callId result, hasKey conv.pendingCalls callId = true →
      ((∃ k, (resolveOne oracle exec (some conv) callId result).outcome = .waiting k) ↔
        unresolvedCalls (dictSetResult conv.pendingCalls callId result) ≠ []) ∧
      (∀ k, (resolveOne oracle exec (some conv) callId result).outcome = .waiting k →
        (resolveOne oracle exec (some conv) callId result).msgs = conv.messages ∧
        (resolveOne oracle exec (some conv) callId result).pend
          = some { conv with
              pendingCalls := dictSetResult conv.pendingCalls callId result })) := by
  constructor
  · intro results
    simp only [resolveBatch]
    by_cases hu : (unresolvedCalls (storeResults conv.pendingCalls results)).isEmpty
    · rw [if_pos hu]
      have hnil : unresolvedCalls (storeResults conv.pendingCalls results) = [] :=
        List.isEmpty_iff.mp hu
      constructor
      · constructor
        · rintro ⟨k, hk⟩
          rcases replyLoop_outcome oracle exec conv.iteration fallbackBatch _ _ _ _ _ with
            ⟨t, ht⟩ | ht
          · rw [ht] at hk
            cases hk
          · rw [ht] at hk
            cases hk
        · intro hne
          exact absurd hnil hne
      · intro k hk
        rcases replyLoop_outcome oracle exec conv.iteration fallbackBatch _ _ _ _ _ with
          ⟨t, ht⟩ | ht
        · rw [ht] at hk
          cases hk
        · rw [ht] at hk
          cases hk
    · rw [if_neg hu]
      refine ⟨⟨fun _ => fun hnil => hu (by rw [hnil]; rfl), fun _ => ⟨_, rfl⟩⟩, ?_⟩
      intro k hk
      have hk' : Outcome.waiting (unresolvedCalls
          (storeResults conv.pendingCalls results)).length = Outcome.waiting k := hk
      cases hk'
      exact ⟨rfl, rfl, rfl⟩
  · intro callId result hkey
    simp only [resolveOne]
    rw [if_pos hkey]
    by_cases hu : (unresolvedCalls (dictSetResult conv.pendingCalls callId result)).isEmpty
    · rw [if_pos hu]
      have hnil : unresolvedCalls (dictSetResult conv.pendingCalls callId result) = [] :=
        List.isEmpty_iff.mp hu
      constructor
      · constructor
        · rintro ⟨k, hk⟩
          rcases replyLoop_outcome oracle exec conv.iteration fallbackChat _ _ _ _ _ with
            ⟨t, ht⟩ | ht
          · rw [ht] at hk
            cases hk
          · rw [ht] at hk
            cases hk
        · intro hne
          exact absurd hnil hne
      · intro k hk
        rcases replyLoop_outcome oracle exec conv.iteration fallbackChat _ _ _ _ _ with
          ⟨t, ht⟩ | ht
        · rw [ht] at hk
          cases hk
        · rw [ht] at hk
          cases hk
    · rw [if_neg hu]
      exact ⟨⟨fun _ => fun hnil => hu (by rw [hnil]; rfl), fun _ => ⟨_, rfl⟩⟩,
        fun k _ => ⟨rfl, rfl⟩⟩

/-- A pending conversation with two unresolved bridge calls. -/
def convC5 : Conversation :=
  ⟨[], [("c1", ⟨"telemetry_slice", none⟩), ("c2", ⟨"telemetry_slice", none⟩)], 1⟩

/-- Witness for C5: resolving one of two calls yields WaitingStatus without
touching the transcript. -/
theorem C5_waiting_iff_witness :
    (∃ k, (resolveOne (fun _ => ⟨none, []⟩) (fun _ => "") (some convC5) "c1" "r").outcome
      = Outcome.waiting k) ∧
    (resolveOne (fun _ => ⟨none, []⟩) (fun _ => "") (some convC5) "c1" "r").msgs
      = convC5.messages := by
  have h := (C5_waiting_iff (fun _ => ⟨none, []⟩) (fun _ => "") convC5).2 "c1" "r" rfl
  obtain ⟨k, hk⟩ := h.1.mpr (by decide)
  exact ⟨⟨k, hk⟩, (h.2 k hk).1⟩

/-! ## Claim C3 — second resolutions of the same callId -/

/-- Claim C3 as stated: once a resolution has stored a result for a callId,
a later resolution for the same callId while the conversation is still
pending does not overwrite the stored result. -/
def claimC3Statement : Prop :=
  ∀ (oracle : ℕ → CompletionResp) (exec : ToolCall → String) (conv : Conversation)
    (callId : String) (pc : PendingCall) (v r : String),
    alookup conv.pendingCalls callId = some pc → pc.result = some v →
    (∀ conv', (resolveOne oracle exec (some conv) callId r).pend = some conv' →
      alookup conv'.pendingCalls callId = some pc) ∧
    (∀ results conv', (resolveBatch oracle exec (some conv) results).pend = some conv' →
      (callId, r) ∈ results → alookup conv'.pendingCalls callId = some pc)

/-- A conversation whose call `c1` already carries result `R1` while `c2`
is still unresolved. -/
def convC3 : Conversation :=
  ⟨[], [("c1", ⟨"telemetry_slice", some "R1"⟩), ("c2", ⟨"telemetry_slice", none⟩)], 1⟩

/-- Counterexample to C3: re-resolving `c1` with `R2` while `c2` is still
pending overwrites the stored result (the source assigns unconditionally;
only callIds absent from the pending map are skipped). -/
theorem claim_C3_cex : ¬ claimC3Statement := by
  intro h
  obtain ⟨h1, -⟩ := h (fun _ => ⟨none, []⟩) (fun _ => "") convC3 "c1"
    ⟨"telemetry_slice", some "R1"⟩ "R1" "R2" rfl rfl
  have h2 := h1 { convC3 with
    pendingCalls := dictSetResult convC3.pendingCalls "c1" "R2" } rfl
  exact absurd h2 (by decide)

/-- Claim C3, amended: a resolution for a callId present in the pending map
**overwrites** the stored result unconditionally (last write wins), in both
resolveOne and resolveBatch; only resolutions for callIds absent from the
map are ignored — skipped (with a logged warning) by resolveBatch, and
rejected as NotFound without any mutation by resolveOne. -/
theorem C3_resolution_overwrites :
    (∀ (pcs : List (String × PendingCall)) (callId r : String) (pc : PendingCall),
      alookup pcs callId = some pc →
      alookup (dictSetResult pcs callId r) callId = some { pc with result := some r }) ∧
    (∀ (pcs : List (String × PendingCall)) (results : List (String × String)),
      (∀ p ∈ results, hasKey pcs p.1 = false) → storeResults pcs results = pcs) ∧
    (∀ (oracle : ℕ → CompletionResp) (exec : ToolCall → String) (conv : Conversation)
      (callId r : String), hasKey conv.pendingCalls callId = false →
      (resolveOne oracle exec (some conv) callId r).outcome = .notFound ∧
      (resolveOne oracle exec (some conv) callId r).pend = some conv ∧
      (resolveOne oracle exec (some conv) callId r).msgs = conv.messages) := by
  refine ⟨?_, ?_, ?_⟩
  · intro pcs callId r pc h
    induction pcs with
    | nil => cases h
    | cons hd tl ih =>
      by_cases hh : (hd.1 == callId) = true
      · have hpc : hd.2 = pc := by
          simp only [alookup, List.find?, hh] at h
          exact Option.some.inj h
        subst hpc
        simp [alookup, dictSetResult, List.find?, hh]
      · have hh' : (hd.1 == callId) = false := by
          simp only [Bool.not_eq_true] at hh
          exact hh
        have h2 : alookup tl callId = some pc := by
          simp only [alookup, List.find?, hh'] at h
          exact h
        have h3 := ih h2
        simp only [dictSetResult, List.map_cons, hh', Bool.false_eq_true, if_false] at h3 ⊢
        simp only [alookup, List.find?, hh'] at h3 ⊢
        exact h3
  · intro pcs results h
    induction results with
    | nil => rfl
    | cons hd rest ih =>
      have hhd : hasKey pcs hd.1 = false := h hd (List.mem_cons_self _ _)
      simp only [storeResults, hhd, Bool.false_eq_true, if_false]
      exact ih (fun p hp => h p (List.mem_cons.mpr (Or.inr hp)))
  · intro oracle exec conv callId r h
    simp only [resolveOne, h, Bool.false_eq_true, if_false]
    exact ⟨trivial, trivial, trivial⟩

/-- Witness for the amended C3: re-resolving `c1` overwrites its stored result
with `R2`; storing a batch of unknown ids leaves the pending map unchanged;
and resolving the unknown id `zz` reports not-found. -/
theorem C3_resolution_overwrites_witness :
    alookup (dictSetResult convC3.pendingCalls "c1" "R2") "c1"
      = some ⟨"telemetry_slice", some "R2"⟩ ∧
    storeResults convC3.pendingCalls [("zz", "v")] = convC3.pendingCalls ∧
    (resolveOne (fun _ => ⟨none, []⟩) (fun _ => "") (some convC3) "zz" "v").outcome
      = Outcome.notFound :=
  ⟨C3_resolution_overwrites.1 convC3.pendingCalls "c1" "R2"
      ⟨"telemetry_slice", some "R1"⟩ (by decide),
   C3_resolution_overwrites.2.1 convC3.pendingCalls [("zz", "v")] (by decide),
   (C3_resolution_overwrites.2.2 (fun _ => ⟨none, []⟩) (fun _ => "") convC3
      "zz" "v" (by decide)).1⟩

/-- Witness for C9: the unknown-session and unknown-metric cases. -/
theorem C9_metrics_total_witness :
    (metrics_compute [] "nosuch" "max_altitude").ok = false ∧
    (metrics_compute [] "nosuch" "max_altitude").value = none ∧
    (metrics_compute [("s", {})] "s" "bogus_metric").value = none := by
  refine ⟨rfl, C9_metrics_total [] "nosuch" "max_altitude" rfl, ?_⟩
  exact C9_metrics_total [("s", {})] "s" "bogus_metric" rfl

/-! ## Claim C2 — iteration counter and the cross-suspension call cap -/

/-- If the resumption loop suspends again, the conversation it stores keeps
the caller's stored iteration verbatim. -/
theorem replyLoop_pend_iteration (oracle : ℕ → CompletionResp) (exec : ToolCall → String)
    (storedIter : ℕ) (fb : String) :
    ∀ (fuel : ℕ) (msgs : List Msg) (iter : ℕ) (pcs : List (String × PendingCall))
      (ncalls : ℕ) (conv' : Conversation),
      (replyLoop oracle exec storedIter fb fuel msgs iter pcs ncalls).pend = some conv' →
      conv'.iteration = storedIter := by
  intro fuel
  induction fuel with
  | zero => intro msgs iter pcs ncalls conv' h; simp [replyLoop] at h
  | succ n ih =>
    intro msgs iter pcs ncalls conv' h
    simp only [replyLoop] at h
    split at h
    · split at h
      · simp at h
      · split at h
        · exact ih _ _ _ _ _ h
        · simp at h
          rw [← h]
    · simp at h

/-- Each run of the resumption loop makes at most `fuel` further
completion-service calls. -/
theorem replyLoop_ncalls_le (oracle : ℕ → CompletionResp) (exec : ToolCall → String)
    (storedIter : ℕ) (fb : String) :
    ∀ (fuel : ℕ) (msgs : List Msg) (iter : ℕ) (pcs : List (String × PendingCall))
      (ncalls : ℕ),
      (replyLoop oracle exec storedIter fb fuel msgs iter pcs ncalls).ncalls
        ≤ ncalls + fuel := by
  intro fuel
  induction fuel with
  | zero =>
    intro msgs iter pcs ncalls
    show ncalls ≤ ncalls + 0
    omega
  | succ n ih =>
    intro msgs iter pcs ncalls
    simp only [replyLoop]
    split
    · split
      · show ncalls + 1 ≤ ncalls + (n + 1)
        omega
      · split
        · exact le_trans (ih _ _ _ _) (by omega)
        · show ncalls + 1 ≤ ncalls + (n + 1)
          omega
    · show ncalls ≤ ncalls + (n + 1)
      omega

/-- Each run of the `chat_with_tools` loop makes at most `fuel` further
completion-service calls. -/
theorem chatLoop_ncalls_le (oracle : ℕ → CompletionResp) (exec : ToolCall → String) :
    ∀ (fuel : ℕ) (msgs : List Msg) (iter : ℕ) (pend : Option Conversation) (ncalls : ℕ),
      (chatLoop oracle exec fuel msgs iter pend ncalls).ncalls ≤ ncalls + fuel := by
  intro fuel
  induction fuel with
  | zero =>
    intro msgs iter pend ncalls
    show ncalls ≤ ncalls + 0
    omega
  | succ n ih =>
    intro msgs iter pend ncalls
    simp only [chatLoop]
    split
    · split
      · show ncalls + 1 ≤ ncalls + (n + 1)
        omega
      · split
        · exact le_trans (ih _ _ _ _) (by omega)
        · show ncalls + 1 ≤ ncalls + (n + 1)
          omega
    · show ncalls ≤ ncalls + (n + 1)
      omega

/-- Claim C2 as stated: across any sequence of suspensions and resumptions
of one conversation, at most `maxIterations` completion-service round trips
are made in total. -/
def claimC2Statement : Prop :=
  ∀ (oracle : ℕ → CompletionResp) (exec : ToolCall → String) (history : List Msg)
    (ops : List ResolveOp),
    (startConversation oracle exec history none).ncalls
      + (runResolves exec (startConversation oracle exec history none).pend ops).2
      ≤ maxIterations

/-- A completion service that always requests the bridged tool under the
same callId. -/
def cexOracleC2 : ℕ → CompletionResp :=
  fun _ => ⟨none, [⟨"c0", "telemetry_slice"⟩]⟩

/-- Five successive resolutions of that callId. -/
def cexOpsC2 : List ResolveOp :=
  List.replicate 5 ⟨false, "c0", "r", [], cexOracleC2⟩

/-- Counterexample to C2: a start that suspends immediately (1 call) and
five resumptions that each make one more completion call and re-suspend
make 6 round trips in total; the renewed suspension stores the iteration
back unchanged, so the stored count never reflects the calls already made
and the cross-suspension cap fails. -/
theorem claim_C2_cex : ¬ claimC2Statement := by
  intro h
  have h2 := h cexOracleC2 (fun _ => "") [] cexOpsC2
  exact absurd h2 (by decide)

/-- Claim C2, amended: the stored iteration counter never decreases — a
renewed suspension stores it back verbatim (it is never advanced after
creation) — and the cap is per operation, not cumulative: a fresh
conversation makes at most `maxIterations` completion calls, and each
single resumption makes at most `maxIterations - iteration` completion
calls, resuming the loop from the stored iteration; across several
re-suspensions the total can exceed `maxIterations`. -/
theorem C2_iteration_cap :
    (∀ (oracle : ℕ → CompletionResp) (exec : ToolCall → String) (conv : Conversation)
      (callId r : String) (conv' : Conversation),
      (resolveOne oracle exec (some conv) callId r).pend = some conv' →
      conv'.iteration = conv.iteration) ∧
    (∀ (oracle : ℕ → CompletionResp) (exec : ToolCall → String) (conv : Conversation)
      (results : List (String × String)) (conv' : Conversation),
      (resolveBatch oracle exec (some conv) results).pend = some conv' →
      conv'.iteration = conv.iteration) ∧
    (∀ (oracle : ℕ → CompletionResp) (exec : ToolCall → String) (history : List Msg)
      (pend0 : Option Conversation),
      (startConversation oracle exec history pend0).ncalls ≤ maxIterations) ∧
    (∀ (oracle : ℕ → CompletionResp) (exec : ToolCall → String) (conv : Conversation)
      (callId r : String),
      (resolveOne oracle exec (some conv) callId r).ncalls
        ≤ maxIterations - conv.iteration) ∧
    (∀ (oracle : ℕ → CompletionResp) (exec : ToolCall → String) (conv : Conversation)
      (results : List (String × String)),
      (resolveBatch oracle exec (some conv) results).ncalls
        ≤ maxIterations - conv.iteration) := by
  refine ⟨?_, ?_, ?_, ?_, ?_⟩
  · intro oracle exec conv callId r conv' h
    simp only [resolveOne] at h
    split at h
    · split at h
      · exact replyLoop_pend_iteration oracle exec conv.iteration fallbackChat _ _ _ _ _ conv' h
      · simp at h
        rw [← h]
    · simp at h
      rw [← h]
  · intro oracle exec conv results conv' h
    simp only [resolveBatch] at h
    split at h
    · exact replyLoop_pend_iteration oracle exec conv.iteration fallbackBatch _ _ _ _ _ conv' h
    · simp at h
      rw [← h]
  · intro oracle exec history pend0
    exact le_trans (chatLoop_ncalls_le oracle exec maxIterations _ 0 none 0) (by omega)
  · intro oracle exec conv callId r
    simp only [resolveOne]
    split
    · split
      · exact le_trans
          (replyLoop_ncalls_le oracle exec conv.iteration fallbackChat _ _ _ _ 0) (by omega)
      · show 0 ≤ maxIterations - conv.iteration
        omega
    · show 0 ≤ maxIterations - conv.iteration
      omega
  · intro oracle exec conv results
    simp only [resolveBatch]
    split
    · exact le_trans
        (replyLoop_ncalls_le oracle exec conv.iteration fallbackBatch _ _ _ _ 0) (by omega)
    · show 0 ≤ maxIterations - conv.iteration
      omega

/-- A suspended conversation at stored iteration 1, with one resolvable call. -/
def cexConvC2 : Conversation :=
  ⟨[], [("c0", ⟨"telemetry_slice", none⟩)], 1⟩

/-- The conversation `cexConvC2` is left suspended as after one resolution. -/
def cexConvC2r : Conversation :=
  ((resolveOne cexOracleC2 (fun _ => "") (some cexConvC2) "c0" "r").pend).getD ⟨[], [], 0⟩

/-- Witness for the amended C2: resolving `c0` on a conversation stored at
iteration 1 re-suspends it still at iteration 1, a fresh start makes at
most 5 completion calls, and the single resumption makes at most 4. -/
theorem C2_iteration_cap_witness :
    cexConvC2r.iteration = cexConvC2.iteration ∧
    (startConversation cexOracleC2 (fun _ => "") [] none).ncalls ≤ maxIterations ∧
    (resolveOne cexOracleC2 (fun _ => "") (some cexConvC2) "c0" "r").ncalls
      ≤ maxIterations - cexConvC2.iteration :=
  ⟨C2_iteration_cap.1 cexOracleC2 (fun _ => "") cexConvC2 "c0" "r" cexConvC2r rfl,
   C2_iteration_cap.2.2.1 cexOracleC2 (fun _ => "") [] none,
   C2_iteration_cap.2.2.2.1 cexOracleC2 (fun _ => "") cexConvC2 "c0" "r"⟩

/-! ## Claim C4 — tool-message uniqueness per callId -/

theorem existingToolIds_append (a b : List Msg) :
    existingToolIds (a ++ b) = existingToolIds a ++ existingToolIds b := by
  simp [existingToolIds, List.filter_append]

theorem existingToolIds_assistant (resp : CompletionResp) :
    existingToolIds [assistantMsg resp] = [] := rfl

theorem existingToolIds_toolMsg (i n c : String) :
    existingToolIds [toolResultMsg i n c] = [i] := rfl

theorem hasKey_false_iff {β : Type} (m : List (String × β)) (k : String) :
    hasKey m k = false ↔ ∀ p ∈ m, p.1 ≠ k := by
  constructor
  · intro h p hp hk
    induction m with
    | nil => cases hp
    | cons hd tl ih =>
      rcases List.mem_cons.mp hp with h1 | h1
      · subst h1
        simp [hasKey, alookup, List.find?, hk] at h
      · apply ih _ h1
        by_cases hh : (hd.1 == k) = true
        · simp [hasKey, alookup, List.find?, hh] at h
        · have hh' : (hd.1 == k) = false := by
            simp only [Bool.not_eq_true] at hh
            exact hh
          simp only [hasKey, alookup, List.find?, hh'] at h ⊢
          exact h
  · intro h
    induction m with
    | nil => rfl
    | cons hd tl ih =>
      have hh : (hd.1 == k) = false := by
        have := h hd (List.mem_cons_self _ _)
        simp [this]
      simp only [hasKey, alookup, List.find?, hh]
      have := ih (fun p hp => h p (List.mem_cons.mpr (Or.inr hp)))
      simp only [hasKey, alookup] at this
      exact this

/-- Overwriting a key's value in place leaves the key list unchanged. -/
theorem map_fst_overwrite {β : Type} (k : String) (v : β) :
    ∀ m : List (String × β),
      ((m.map (fun p => if p.1 == k then (k, v) else p)).map Prod.fst) = m.map Prod.fst := by
  intro m
  induction m with
  | nil => rfl
  | cons hd tl ih =>
    simp only [List.map_cons]
    by_cases hh : (hd.1 == k) = true
    · rw [if_pos hh, ih]
      have hk : k = hd.1 := (eq_of_beq hh).symm
      show k :: List.map Prod.fst tl = hd.1 :: List.map Prod.fst tl
      rw [hk]
    · have hh' : (hd.1 == k) = false := by
        simp only [Bool.not_eq_true] at hh
        exact hh
      rw [if_neg (by simp [hh']), ih]

/-- `dictInsert` keeps the key list duplicate-free. -/
theorem dictInsert_keys_nodup {β : Type} (m : List (String × β)) (k : String) (v : β)
    (h : (m.map Prod.fst).Nodup) : ((dictInsert m k v).map Prod.fst).Nodup := by
  unfold dictInsert
  split
  · rw [map_fst_overwrite]
    exact h
  · rename_i hnk
    have hnk' : hasKey m k = false := by
      simp only [Bool.not_eq_true] at hnk
      exact hnk
    have hk : ∀ p ∈ m, p.1 ≠ k := (hasKey_false_iff m k).mp hnk'
    rw [List.map_append]
    apply List.Nodup.append h (by simp)
    intro a ha hb
    simp only [List.map_cons, List.map_nil, List.mem_singleton] at hb
    subst hb
    rcases List.mem_map.mp ha with ⟨p, hp, hpa⟩
    exact hk p hp hpa

theorem dictSetResult_keys (pcs : List (String × PendingCall)) (k r : String) :
    ((dictSetResult pcs k r).map Prod.fst) = pcs.map Prod.fst := by
  unfold dictSetResult
  induction pcs with
  | nil => rfl
  | cons hd tl ih =>
    simp only [List.map_cons]
    by_cases hh : (hd.1 == k) = true
    · rw [if_pos hh]
      simp only [List.map_cons] at ih ⊢
      rw [ih]
    · have hh' : (hd.1 == k) = false := by
        simp only [Bool.not_eq_true] at hh
        exact hh
      rw [if_neg (by simp [hh'])]
      simp only [List.map_cons] at ih ⊢
      rw [ih]

theorem storeResults_keys :
    ∀ (results : List (String × String)) (pcs : List (String × PendingCall)),
      ((storeResults pcs results).map Prod.fst) = pcs.map Prod.fst := by
  intro results
  induction results with
  | nil => intro pcs; rfl
  | cons hd rest ih =>
    intro pcs
    obtain ⟨cid, r⟩ := hd
    simp only [storeResults]
    rw [ih]
    split
    · exact dictSetResult_keys pcs cid r
    · rfl

/-- A `filterMap` whose hits are always `f a` is a sublist of `map f`. -/
theorem filterMap_guard_sublist {α β : Type} (f : α → β) (g : α → Option β)
    (hg : ∀ a b, g a = some b → b = f a) :
    ∀ l : List α, (l.filterMap g).Sublist (l.map f) := by
  intro l
  induction l with
  | nil => simp
  | cons a t ih =>
    simp only [List.filterMap_cons, List.map_cons]
    cases h : g a with
    | none => exact ih.cons _
    | some b =>
      rw [hg a b h]
      exact ih.cons₂ _

theorem existingToolIds_cons_tool (i n c : String) (t : List Msg) :
    existingToolIds (toolResultMsg i n c :: t) = i :: existingToolIds t := rfl

/-- The ids contributed by a list of replayed tool messages, with the
duplicate/validity guards evaluated against a fixed transcript. -/
theorem existingToolIds_replayList (msgs : List Msg) (pcs0 : List (String × PendingCall)) :
    ∀ l : List (String × PendingCall),
      existingToolIds (l.filterMap (fun p =>
        if (existingToolIds msgs).contains p.1 then none
        else if !(lastAssistantPendingIds msgs pcs0).contains p.1 then none
        else some (toolResultMsg p.1 p.2.tool (p.2.result.getD ""))))
      = l.filterMap (fun p =>
        if (existingToolIds msgs).contains p.1 then none
        else if !(lastAssistantPendingIds msgs pcs0).contains p.1 then none
        else some p.1) := by
  intro l
  induction l with
  | nil => rfl
  | cons a t ih =>
    cases h1 : (existingToolIds msgs).contains a.1 with
    | true =>
      have h1' : a.1 ∈ existingToolIds msgs := by simpa using h1
      have hfa1 : (fun p : String × PendingCall =>
          if (existingToolIds msgs).contains p.1 then none
          else if !(lastAssistantPendingIds msgs pcs0).contains p.1 then none
          else some (toolResultMsg p.1 p.2.tool (p.2.result.getD ""))) a
          = (none : Option Msg) := by simp [h1']
      have hfa2 : (fun p : String × PendingCall =>
          if (existingToolIds msgs).contains p.1 then none
          else if !(lastAssistantPendingIds msgs pcs0).contains p.1 then none
          else some p.1) a = (none : Option String) := by simp [h1']
      simp only [List.filterMap_cons, hfa1, hfa2]
      exact ih
    | false =>
      have h1' : a.1 ∉ existingToolIds msgs := by simpa using h1
      cases h2 : (lastAssistantPendingIds msgs pcs0).contains a.1 with
      | false =>
        have h2' : a.1 ∉ lastAssistantPendingIds msgs pcs0 := by simpa using h2
        have hfa1 : (fun p : String × PendingCall =>
            if (existingToolIds msgs).contains p.1 then none
            else if !(lastAssistantPendingIds msgs pcs0).contains p.1 then none
            else some (toolResultMsg p.1 p.2.tool (p.2.result.getD ""))) a
            = (none : Option Msg) := by simp [h1', h2']
        have hfa2 : (fun p : String × PendingCall =>
            if (existingToolIds msgs).contains p.1 then none
            else if !(lastAssistantPendingIds msgs pcs0).contains p.1 then none
            else some p.1) a = (none : Option String) := by simp [h1', h2']
        simp only [List.filterMap_cons, hfa1, hfa2]
        exact ih
      | true =>
        have h2' : a.1 ∈ lastAssistantPendingIds msgs pcs0 := by simpa using h2
        have hfa1 : (fun p : String × PendingCall =>
            if (existingToolIds msgs).contains p.1 then none
            else if !(lastAssistantPendingIds msgs pcs0).contains p.1 then none
            else some (toolResultMsg p.1 p.2.tool (p.2.result.getD ""))) a
            = some (toolResultMsg a.1 a.2.tool (a.2.result.getD "")) := by
          simp [h1', h2']
        have hfa2 : (fun p : String × PendingCall =>
            if (existingToolIds msgs).contains p.1 then none
            else if !(lastAssistantPendingIds msgs pcs0).contains p.1 then none
            else some p.1) a = some a.1 := by
          simp [h1', h2']
        simp only [List.filterMap_cons, hfa1, hfa2, existingToolIds_cons_tool]
        rw [ih]

/-- The ids of the tool messages `replayAppend` adds, as a filterMap over the
pending entries. -/
theorem existingToolIds_replayAppend (msgs : List Msg) (pcs : List (String × PendingCall)) :
    existingToolIds (replayAppend msgs pcs)
      = existingToolIds msgs ++ pcs.filterMap (fun p =>
          if (existingToolIds msgs).contains p.1 then none
          else if !(lastAssistantPendingIds msgs pcs).contains p.1 then none
          else some p.1) := by
  unfold replayAppend
  rw [existingToolIds_append, existingToolIds_replayList]

/-- Appending replayed tool messages does not change the most recent
assistant message carrying tool calls. -/
theorem lastAssistantPendingIds_replayAppend (msgs : List Msg)
    (pcs pcs' : List (String × PendingCall)) :
    lastAssistantPendingIds (replayAppend msgs pcs') pcs
      = lastAssistantPendingIds msgs pcs := by
  unfold lastAssistantPendingIds replayAppend
  rw [List.reverse_append, List.find?_append]
  have hnone : (pcs'.filterMap (fun p =>
      if (existingToolIds msgs).contains p.1 then none
      else if !(lastAssistantPendingIds msgs pcs').contains p.1 then none
      else some (toolResultMsg p.1 p.2.tool (p.2.result.getD "")))).reverse.find?
      (fun m => m.role == "assistant" && !m.toolCalls.isEmpty) = none := by
    rw [List.find?_eq_none]
    intro x hx
    rcases List.mem_filterMap.mp (List.mem_reverse.mp hx) with ⟨p, hp, hpx⟩
    split at hpx
    · cases hpx
    · split at hpx
      · cases hpx
      · have : x = toolResultMsg p.1 p.2.tool (p.2.result.getD "") :=
          (Option.some.inj hpx).symm
        subst this
        simp [toolResultMsg]
  rw [show ((pcs'.filterMap (fun p =>
      if (existingToolIds msgs).contains p.1 then none
      else if !((lastAssistantPendingIds msgs pcs').contains p.1) then none
      else some (toolResultMsg p.1 p.2.tool (p.2.result.getD "")))).reverse.find?
      (fun m => m.role == "assistant" && !m.toolCalls.isEmpty))
      = (none : Option Msg) from hnone]
  rfl

/-- Ids of completion-response tool calls. -/
def RespIds (oracle : ℕ → CompletionResp) (n : ℕ) : List String :=
  (oracle n).toolCalls.map ToolCall.id

/-- Freshness of the completion service's tool-call ids with respect to a
transcript, a pending map, and the calls already made: ids within one
response are distinct, distinct across responses, and never collide with a
tool message already in the transcript or a pending callId. -/
def OracleFresh (oracle : ℕ → CompletionResp) (msgs : List Msg)
    (pcs : List (String × PendingCall)) (n0 : ℕ) : Prop :=
  ∀ n, n0 ≤ n →
    (RespIds oracle n).Nodup ∧
    (∀ i ∈ RespIds oracle n, i ∉ existingToolIds msgs) ∧
    (∀ i ∈ RespIds oracle n, i ∉ pcs.map Prod.fst) ∧
    (∀ m, n0 ≤ m → m < n → ∀ i ∈ RespIds oracle n, i ∉ RespIds oracle m)

/-- `processTurnReply` leaves the pending map unchanged when it completes
the turn, registers exactly one bridged call when it suspends, and in both
cases appends tool messages whose ids form a sublist of the turn's
tool-call ids. -/
theorem processTurnReply_ids (exec : ToolCall → String) :
    ∀ (calls : List ToolCall) (msgs : List Msg) (pcs : List (String × PendingCall)),
      (∀ m2 pcs2, processTurnReply exec calls msgs pcs = .toLoop m2 pcs2 →
        pcs2 = pcs ∧ ∃ ids, existingToolIds m2 = existingToolIds msgs ++ ids ∧
          ids.Sublist (calls.map ToolCall.id)) ∧
      (∀ m2 pcs2, processTurnReply exec calls msgs pcs = .suspendOne m2 pcs2 →
        (∃ tc, tc ∈ calls ∧ pcs2 = dictInsert pcs tc.id ⟨tc.name, none⟩) ∧
        ∃ ids, existingToolIds m2 = existingToolIds msgs ++ ids ∧
          ids.Sublist (calls.map ToolCall.id)) := by
  intro calls
  induction calls with
  | nil =>
    intro msgs pcs
    constructor
    · intro m2 pcs2 h
      simp only [processTurnReply] at h
      rcases h with ⟨h1, h2⟩
      exact ⟨rfl, [], by simp, by simp⟩
    · intro m2 pcs2 h
      simp [processTurnReply] at h
  | cons tc rest ih =>
    intro msgs pcs
    cases hb : isBridgeTool tc.name with
    | true =>
      constructor
      · intro m2 pcs2 h
        simp [processTurnReply, hb] at h
      · intro m2 pcs2 h
        simp only [processTurnReply, hb, if_true] at h
        rcases h with ⟨h1, h2⟩
        exact ⟨⟨tc, List.mem_cons_self _ _, rfl⟩, [], by simp, by simp⟩
    | false =>
      obtain ⟨ihA, ihB⟩ := ih (msgs ++ [toolResultMsg tc.id tc.name (exec tc)]) pcs
      have hstep : processTurnReply exec (tc :: rest) msgs pcs
          = processTurnReply exec rest (msgs ++ [toolResultMsg tc.id tc.name (exec tc)]) pcs := by
        simp [processTurnReply, hb]
      constructor
      · intro m2 pcs2 h
        rw [hstep] at h
        obtain ⟨hp, ids, hids, hsub⟩ := ihA m2 pcs2 h
        refine ⟨hp, tc.id :: ids, ?_, ?_⟩
        · rw [hids, existingToolIds_append, existingToolIds_toolMsg]
          simp
        · simpa using hsub.cons₂ tc.id
      · intro m2 pcs2 h
        rw [hstep] at h
        obtain ⟨⟨tc', htc', hpcs2⟩, ids, hids, hsub⟩ := ihB m2 pcs2 h
        refine ⟨⟨tc', List.mem_cons_of_mem _ htc', hpcs2⟩, tc.id :: ids, ?_, ?_⟩
        · rw [hids, existingToolIds_append, existingToolIds_toolMsg]
          simp
        · simpa using hsub.cons₂ tc.id

/-- The resumption loop keeps the transcript's tool-message ids
duplicate-free and hands back (on re-suspension) a conversation whose
transcript ids and pending keys are duplicate-free, provided the service's
ids are fresh. -/
theorem replyLoop_nodup (oracle : ℕ → CompletionResp) (exec : ToolCall → String)
    (storedIter : ℕ) (fb : String) :
    ∀ (fuel : ℕ) (msgs : List Msg) (iter : ℕ) (pcs : List (String × PendingCall))
      (ncalls : ℕ),
      (existingToolIds msgs).Nodup →
      ((pcs.map Prod.fst).Nodup) →
      OracleFresh oracle msgs pcs ncalls →
      (existingToolIds (replyLoop oracle exec storedIter fb fuel msgs iter pcs ncalls).msgs).Nodup ∧
      (∀ conv',
        (replyLoop oracle exec storedIter fb fuel msgs iter pcs ncalls).pend = some conv' →
        (existingToolIds conv'.messages).Nodup ∧ (conv'.pendingCalls.map Prod.fst).Nodup) := by
  intro fuel
  induction fuel with
  | zero =>
    intro msgs iter pcs ncalls hE hP hF
    refine ⟨hE, ?_⟩
    intro conv' h
    simp [replyLoop] at h
  | succ n ih =>
    intro msgs iter pcs ncalls hE hP hF
    have hmA : existingToolIds (msgs ++ [assistantMsg (oracle ncalls)]) = existingToolIds msgs := by
      rw [existingToolIds_append, existingToolIds_assistant, List.append_nil]
    simp only [replyLoop]
    split
    · split
      · refine ⟨by rw [hmA]; exact hE, ?_⟩
        intro conv' h
        simp at h
      · split
        · rename_i m2 pcs2 heq
          obtain ⟨hp, ids, hids, hsub⟩ :=
            (processTurnReply_ids exec (oracle ncalls).toolCalls
              (msgs ++ [assistantMsg (oracle ncalls)]) pcs).1 m2 pcs2 heq
          subst hp
          rw [hmA] at hids
          have hidsN : ids.Nodup := (hF ncalls le_rfl).1.sublist hsub
          have hidsF : ∀ i ∈ ids, i ∉ existingToolIds msgs := by
            intro i hi
            exact (hF ncalls le_rfl).2.1 i (hsub.subset hi)
          have hE' : (existingToolIds m2).Nodup := by
            rw [hids]
            exact List.Nodup.append hE hidsN (fun a ha hb => hidsF a hb ha)
          have hF' : OracleFresh oracle m2 pcs2 (ncalls + 1) := by
            intro k hk
            obtain ⟨b1, b2, b3, b4⟩ := hF k (by omega)
            refine ⟨b1, ?_, b3, ?_⟩
            · intro i hi hmem
              rw [hids] at hmem
              rcases List.mem_append.mp hmem with hm | hm
              · exact b2 i hi hm
              · exact b4 ncalls le_rfl (by omega) i hi (hsub.subset hm)
            · intro m hm1 hm2 i hi
              exact b4 m (by omega) hm2 i hi
          exact ih m2 (iter + 1) pcs2 (ncalls + 1) hE' hP hF'
        · rename_i m2 pcs2 heq
          obtain ⟨⟨tc, htc, hpcs2⟩, ids, hids, hsub⟩ :=
            (processTurnReply_ids exec (oracle ncalls).toolCalls
              (msgs ++ [assistantMsg (oracle ncalls)]) pcs).2 m2 pcs2 heq
          rw [hmA] at hids
          have hidsN : ids.Nodup := (hF ncalls le_rfl).1.sublist hsub
          have hidsF : ∀ i ∈ ids, i ∉ existingToolIds msgs := by
            intro i hi
            exact (hF ncalls le_rfl).2.1 i (hsub.subset hi)
          have hE' : (existingToolIds m2).Nodup := by
            rw [hids]
            exact List.Nodup.append hE hidsN (fun a ha hb => hidsF a hb ha)
          refine ⟨hE', ?_⟩
          intro conv' h
          simp at h
          rw [← h]
          refine ⟨hE', ?_⟩
          rw [hpcs2]
          exact dictInsert_keys_nodup pcs tc.id ⟨tc.name, none⟩ hP
    · refine ⟨hE, ?_⟩
      intro conv' h
      simp at h

/-- The per-session invariant: transcript tool-message ids and pending-map
keys are duplicate-free. -/
def pendInv : Option Conversation → Prop
  | none => True
  | some conv =>
    (existingToolIds conv.messages).Nodup ∧ (conv.pendingCalls.map Prod.fst).Nodup

/-- Freshness of one resumption request's completion service with respect
to the session's current state. -/
def opFresh (op : ResolveOp) : Option Conversation → Prop
  | none => True
  | some conv => OracleFresh op.oracle conv.messages conv.pendingCalls 0

/-- Freshness of each request in a sequence with respect to the state it
will actually see. -/
def runFresh (exec : ToolCall → String) : Option Conversation → List ResolveOp → Prop
  | _, [] => True
  | pend, op :: rest =>
    opFresh op pend ∧ runFresh exec (applyResolve exec pend op).pend rest

theorem resolveOne_nodup (oracle : ℕ → CompletionResp) (exec : ToolCall → String)
    (conv : Conversation) (callId r : String)
    (hE : (existingToolIds conv.messages).Nodup)
    (hP : (conv.pendingCalls.map Prod.fst).Nodup)
    (hF : OracleFresh oracle conv.messages conv.pendingCalls 0) :
    (existingToolIds (resolveOne oracle exec (some conv) callId r).msgs).Nodup ∧
    (∀ conv', (resolveOne oracle exec (some conv) callId r).pend = some conv' →
      (existingToolIds conv'.messages).Nodup ∧ (conv'.pendingCalls.map Prod.fst).Nodup) := by
  simp only [resolveOne]
  split
  · split
    · apply replyLoop_nodup
      · rw [existingToolIds_replayAppend]
        apply List.Nodup.append hE
        · apply List.Nodup.sublist
            (filterMap_guard_sublist Prod.fst _ ?_ (dictSetResult conv.pendingCalls callId r))
          · rw [dictSetResult_keys]
            exact hP
          · intro a b h
            split at h
            · cases h
            · split at h
              · cases h
              · exact (Option.some.inj h).symm
        · intro a ha hb
          rcases List.mem_filterMap.mp hb with ⟨p, hp, hpe⟩
          split at hpe
          · cases hpe
          · split at hpe
            · cases hpe
            · rename_i hc1 hc2
              have : a = p.1 := (Option.some.inj hpe).symm
              subst this
              exact hc1 (by simpa using ha)
      · rw [dictSetResult_keys]
        exact hP
      · intro k hk
        obtain ⟨b1, b2, b3, b4⟩ := hF k hk
        refine ⟨b1, ?_, ?_, b4⟩
        · intro i hi hmem
          rw [existingToolIds_replayAppend] at hmem
          rcases List.mem_append.mp hmem with hm | hm
          · exact b2 i hi hm
          · rcases List.mem_filterMap.mp hm with ⟨p, hp, hpe⟩
            split at hpe
            · cases hpe
            · split at hpe
              · cases hpe
              · have : i = p.1 := (Option.some.inj hpe).symm
                subst this
                exact b3 p.1 hi (by
                  rw [← dictSetResult_keys conv.pendingCalls callId r]
                  exact List.mem_map.mpr ⟨p, hp, rfl⟩)
        · intro i hi
          rw [dictSetResult_keys]
          exact b3 i hi
    · refine ⟨hE, ?_⟩
      intro conv' h
      simp at h
      rw [← h]
      refine ⟨hE, ?_⟩
      rw [dictSetResult_keys]
      exact hP
  · refine ⟨hE, ?_⟩
    intro conv' h
    simp at h
    rw [← h]
    exact ⟨hE, hP⟩

theorem resolveBatch_nodup (oracle : ℕ → CompletionResp) (exec : ToolCall → String)
    (conv : Conversation) (results : List (String × String))
    (hE : (existingToolIds conv.messages).Nodup)
    (hP : (conv.pendingCalls.map Prod.fst).Nodup)
    (hF : OracleFresh oracle conv.messages conv.pendingCalls 0) :
    (existingToolIds (resolveBatch oracle exec (some conv) results).msgs).Nodup ∧
    (∀ conv', (resolveBatch oracle exec (some conv) results).pend = some conv' →
      (existingToolIds conv'.messages).Nodup ∧ (conv'.pendingCalls.map Prod.fst).Nodup) := by
  simp only [resolveBatch]
  split
  · apply replyLoop_nodup
    · rw [existingToolIds_replayAppend]
      apply List.Nodup.append hE
      · apply List.Nodup.sublist
          (filterMap_guard_sublist Prod.fst _ ?_ (storeResults conv.pendingCalls results))
        · rw [storeResults_keys]
          exact hP
        · intro a b h
          split at h
          · cases h
          · split at h
            · cases h
            · exact (Option.some.inj h).symm
      · intro a ha hb
        rcases List.mem_filterMap.mp hb with ⟨p, hp, hpe⟩
        split at hpe
        · cases hpe
        · split at hpe
          · cases hpe
          · rename_i hc1 hc2
            have : a = p.1 := (Option.some.inj hpe).symm
            subst this
            exact hc1 (by simpa using ha)
    · rw [storeResults_keys]
      exact hP
    · intro k hk
      obtain ⟨b1, b2, b3, b4⟩ := hF k hk
      refine ⟨b1, ?_, ?_, b4⟩
      · intro i hi hmem
        rw [existingToolIds_replayAppend] at hmem
        rcases List.mem_append.mp hmem with hm | hm
        · exact b2 i hi hm
        · rcases List.mem_filterMap.mp hm with ⟨p, hp, hpe⟩
          split at hpe
          · cases hpe
          · split at hpe
            · cases hpe
            · have : i = p.1 := (Option.some.inj hpe).symm
              subst this
              exact b3 p.1 hi (by
                rw [← storeResults_keys results conv.pendingCalls]
                exact List.mem_map.mpr ⟨p, hp, rfl⟩)
      · intro i hi
        rw [storeResults_keys]
        exact b3 i hi
  · refine ⟨hE, ?_⟩
    intro conv' h
    simp at h
    rw [← h]
    refine ⟨hE, ?_⟩
    rw [storeResults_keys]
    exact hP

theorem applyResolve_pendInv (exec : ToolCall → String) (pend : Option Conversation)
    (op : ResolveOp) (hI : pendInv pend) (hF : opFresh op pend) :
    pendInv (applyResolve exec pend op).pend := by
  cases pend with
  | none =>
    unfold applyResolve
    split
    · simp [resolveBatch, pendInv]
    · simp [resolveOne, pendInv]
  | some conv =>
    obtain ⟨hE, hP⟩ := hI
    unfold applyResolve
    split
    · cases h : (resolveBatch op.oracle exec (some conv) op.results).pend with
      | none => exact trivial
      | some conv' =>
        exact (resolveBatch_nodup op.oracle exec conv op.results hE hP hF).2 conv' h
    · cases h : (resolveOne op.oracle exec (some conv) op.callId op.result).pend with
      | none => exact trivial
      | some conv' =>
        exact (resolveOne_nodup op.oracle exec conv op.callId op.result hE hP hF).2 conv' h

/-- Claim C4: (i) every message `replayAppend` adds is a tool message for a
pending callId that is listed by the most recent assistant message carrying
tool calls and has no tool message in the transcript yet; (ii) replaying a
second time adds nothing, so duplicate resolutions never duplicate a tool
message; (iii) across any sequence of resolveOne/resolveBatch requests
whose completion services return fresh tool-call ids, the stored
conversation keeps its transcript free of duplicate tool_call_ids (and its
pending keys duplicate-free). -/
theorem C4_tool_message_unique :
    (∀ (msgs : List Msg) (pcs : List (String × PendingCall)) (m : Msg),
      m ∈ replayAppend msgs pcs → m ∉ msgs →
      ∃ p ∈ pcs, m = toolResultMsg p.1 p.2.tool (p.2.result.getD "") ∧
        p.1 ∉ existingToolIds msgs ∧ p.1 ∈ lastAssistantPendingIds msgs pcs) ∧
    (∀ (msgs : List Msg) (pcs : List (String × PendingCall)),
      replayAppend (replayAppend msgs pcs) pcs = replayAppend msgs pcs) ∧
    (∀ (exec : ToolCall → String) (pend : Option Conversation) (ops : List ResolveOp),
      pendInv pend → runFresh exec pend ops →
      pendInv (runResolves exec pend ops).1) := by
  refine ⟨?_, ?_, ?_⟩
  · intro msgs pcs m hm hnm
    unfold replayAppend at hm
    rcases List.mem_append.mp hm with h | h
    · exact absurd h hnm
    · rcases List.mem_filterMap.mp h with ⟨p, hp, hpe⟩
      refine ⟨p, hp, ?_⟩
      split at hpe
      · cases hpe
      · split at hpe
        · cases hpe
        · rename_i hc1 hc2
          refine ⟨(Option.some.inj hpe).symm, ?_, ?_⟩
          · intro hmem
            exact hc1 (by simpa using hmem)
          · have : (lastAssistantPendingIds msgs pcs).contains p.1 = true := by
              rcases Bool.eq_false_or_eq_true
                ((lastAssistantPendingIds msgs pcs).contains p.1) with h1 | h1
              · exact h1
              · have h1' : p.1 ∉ lastAssistantPendingIds msgs pcs := by simpa using h1
                exact absurd (by simp [h1']) hc2
            simpa using this
  · intro msgs pcs
    have hlast := lastAssistantPendingIds_replayAppend msgs pcs pcs
    have happ : ∀ p ∈ pcs,
        (if (existingToolIds (replayAppend msgs pcs)).contains p.1 then none
         else if !(lastAssistantPendingIds (replayAppend msgs pcs) pcs).contains p.1 then none
         else some (toolResultMsg p.1 p.2.tool (p.2.result.getD ""))) = (none : Option Msg) := by
      intro p hp
      cases h1 : (existingToolIds msgs).contains p.1 with
      | true =>
        have h1' : p.1 ∈ existingToolIds msgs := by simpa using h1
        have hmem : p.1 ∈ existingToolIds (replayAppend msgs pcs) := by
          rw [existingToolIds_replayAppend]
          exact List.mem_append.mpr (Or.inl h1')
        simp [hmem]
      | false =>
        have h1' : p.1 ∉ existingToolIds msgs := by simpa using h1
        cases h2 : (lastAssistantPendingIds msgs pcs).contains p.1 with
        | false =>
          have h2' : p.1 ∉ lastAssistantPendingIds msgs pcs := by simpa using h2
          rw [hlast]
          cases h3 : (existingToolIds (replayAppend msgs pcs)).contains p.1 with
          | true =>
            have h3' : p.1 ∈ existingToolIds (replayAppend msgs pcs) := by simpa using h3
            simp [h3']
          | false =>
            have h3' : p.1 ∉ existingToolIds (replayAppend msgs pcs) := by simpa using h3
            simp [h3', h2']
        | true =>
          have h2' : p.1 ∈ lastAssistantPendingIds msgs pcs := by simpa using h2
          have hmem : p.1 ∈ existingToolIds (replayAppend msgs pcs) := by
            rw [existingToolIds_replayAppend]
            refine List.mem_append.mpr (Or.inr ?_)
            exact List.mem_filterMap.mpr ⟨p, hp, by simp [h1', h2']⟩
          simp [hmem]
    have hnil : pcs.filterMap (fun p =>
        if (existingToolIds (replayAppend msgs pcs)).contains p.1 then none
        else if !(lastAssistantPendingIds (replayAppend msgs pcs) pcs).contains p.1 then none
        else some (toolResultMsg p.1 p.2.tool (p.2.result.getD ""))) = [] := by
      rw [List.filterMap_eq_nil_iff]
      exact happ
    calc replayAppend (replayAppend msgs pcs) pcs
        = replayAppend msgs pcs ++ pcs.filterMap (fun p =>
            if (existingToolIds (replayAppend msgs pcs)).contains p.1 then none
            else if !(lastAssistantPendingIds (replayAppend msgs pcs) pcs).contains p.1 then none
            else some (toolResultMsg p.1 p.2.tool (p.2.result.getD ""))) := rfl
      _ = replayAppend msgs pcs := by rw [hnil, List.append_nil]
  · intro exec pend ops
    induction ops generalizing pend with
    | nil =>
      intro hI _
      simpa [runResolves] using hI
    | cons op rest ih =>
      intro hI hF
      obtain ⟨hf, hrest⟩ := hF
      simp only [runResolves]
      exact ih (applyResolve exec pend op).pend (applyResolve_pendInv exec pend op hI hf) hrest

/-- A pending session with one bridged call, and a resumption whose
completion service returns no tool calls. -/
def convC4 : Conversation :=
  ⟨[], [("c9", ⟨"telemetry_slice", none⟩)], 1⟩

def opsC4 : List ResolveOp :=
  [⟨false, "c9", "r", [], fun _ => ⟨some "done", []⟩⟩]

/-- Witness for C4: running the single resumption keeps the invariant. -/
theorem C4_tool_message_unique_witness :
    pendInv (runResolves (fun _ => "") (some convC4) opsC4).1 :=
  C4_tool_message_unique.2.2 (fun _ => "") (some convC4) opsC4
    ⟨by decide, by decide⟩
    ⟨fun n _ => ⟨by simp [RespIds, opsC4], by simp [RespIds, opsC4],
      by simp [RespIds, opsC4], fun m _ _ => by simp [RespIds, opsC4]⟩, trivial⟩

end UAVLog
